import Mathlib

/- Verification development for `helper.py` (mdgru): the block-circulant
   pseudo-orthogonal initializer (`np_arr_forward`, `np_arr_backward`,
   `_initializer_Q`, `initializer_W`,
   `get_pseudo_orthogonal_block_circulant_initialization`), the generalized
   strided convolution helper (`convolution_helper_padding_same`) and the
   multi-dimensional counter (`counter_generator`).

   Numpy ndarrays are modelled as a (row-major) flat data function together
   with a shape; reshape/transpose/basic indexing are modelled by explicit
   index arithmetic, exactly following numpy semantics.  Real (float)
   arithmetic is modelled exactly over ℚ; `np.float32` casts are lossless in
   this model (rounding to float32 is not modelled). -/

/-! ## Row-major index arithmetic (numpy ndarray model) -/

/-- Row-major flattening of a multi-index `idx` within `shape`. -/
def flattenIdx (shape idx : List Nat) : Nat :=
  (shape.zip idx).foldl (fun acc p => acc * p.1 + p.2) 0

/-- Row-major un-flattening of a flat index `L` into a multi-index for `shape`:
component i is `L / (product of the dimensions after i) % shape i`. -/
def unflattenIdx : List Nat → Nat → List Nat
  | [], _ => []
  | s :: rest, L => (L / rest.prod) % s :: unflattenIdx rest L

theorem flattenIdx_nil (idx : List Nat) : flattenIdx [] idx = 0 := rfl

theorem flattenIdx_four (s0 s1 s2 s3 i0 i1 i2 i3 : Nat) :
    flattenIdx [s0, s1, s2, s3] [i0, i1, i2, i3] =
      ((i0 * s1 + i1) * s2 + i2) * s3 + i3 := by
  simp [flattenIdx, List.foldl]

theorem flattenIdx_six (s0 s1 s2 s3 s4 s5 i0 i1 i2 i3 i4 i5 : Nat) :
    flattenIdx [s0, s1, s2, s3, s4, s5] [i0, i1, i2, i3, i4, i5] =
      ((((i0 * s1 + i1) * s2 + i2) * s3 + i3) * s4 + i4) * s5 + i5 := by
  simp [flattenIdx, List.foldl]

/-- A structured number `a * b + r` with `r < b` divides by `b` to `a`. -/
theorem struct_div {b : Nat} (a : Nat) {r : Nat} (hr : r < b) :
    (a * b + r) / b = a := by
  rcases Nat.eq_zero_or_pos b with hb | hb
  · omega
  · rw [Nat.add_comm, Nat.add_mul_div_right _ _ hb, Nat.div_eq_of_lt hr, Nat.zero_add]

/-- A structured number `a * b + r` with `r < b` reduces mod `b` to `r`. -/
theorem struct_mod {b : Nat} (a : Nat) {r : Nat} (hr : r < b) :
    (a * b + r) % b = r := by
  rw [Nat.add_comm, Nat.add_mul_mod_self_right, Nat.mod_eq_of_lt hr]

theorem struct_bound {a A r b : Nat} (ha : a < A) (hr : r < b) :
    a * b + r < A * b := by
  calc a * b + r < a * b + b := by omega
  _ = (a + 1) * b := by ring
  _ ≤ A * b := Nat.mul_le_mul_right _ (by omega)

theorem unflattenIdx_four {s0 s1 s2 s3 i0 i1 i2 i3 : Nat}
    (h0 : i0 < s0) (h1 : i1 < s1) (h2 : i2 < s2) (h3 : i3 < s3) :
    unflattenIdx [s0, s1, s2, s3] (((i0 * s1 + i1) * s2 + i2) * s3 + i3) =
      [i0, i1, i2, i3] := by
  have d2 : (((i0 * s1 + i1) * s2 + i2) * s3 + i3) / (s3 * 1) = (i0 * s1 + i1) * s2 + i2
      := by rw [Nat.mul_one]; exact struct_div _ h3
  have d1 : (((i0 * s1 + i1) * s2 + i2) * s3 + i3) / (s2 * (s3 * 1)) = i0 * s1 + i1 := by
    have e : s2 * (s3 * 1) = s3 * s2 := by ring
    rw [e, ← Nat.div_div_eq_div_mul, struct_div _ h3, struct_div _ h2]
  have d0 : (((i0 * s1 + i1) * s2 + i2) * s3 + i3) / (s1 * (s2 * (s3 * 1))) = i0 := by
    have e : s1 * (s2 * (s3 * 1)) = s3 * s2 * s1 := by ring
    rw [e, ← Nat.div_div_eq_div_mul, ← Nat.div_div_eq_div_mul, struct_div _ h3,
      struct_div _ h2, struct_div _ h1]
  simp only [unflattenIdx, List.prod_cons, List.prod_nil]
  rw [d0, d1, d2, Nat.div_one, Nat.mod_eq_of_lt h0, struct_mod _ h1, struct_mod _ h2,
    struct_mod _ h3]

theorem unflattenIdx_six {s0 s1 s2 s3 s4 s5 i0 i1 i2 i3 i4 i5 : Nat}
    (h0 : i0 < s0) (h1 : i1 < s1) (h2 : i2 < s2) (h3 : i3 < s3)
    (h4 : i4 < s4) (h5 : i5 < s5) :
    unflattenIdx [s0, s1, s2, s3, s4, s5]
        (((((i0 * s1 + i1) * s2 + i2) * s3 + i3) * s4 + i4) * s5 + i5) =
      [i0, i1, i2, i3, i4, i5] := by
  have d4 : (((((i0 * s1 + i1) * s2 + i2) * s3 + i3) * s4 + i4) * s5 + i5) / (s5 * 1) =
      (((i0 * s1 + i1) * s2 + i2) * s3 + i3) * s4 + i4 := by
    rw [Nat.mul_one]; exact struct_div _ h5
  have d3 : (((((i0 * s1 + i1) * s2 + i2) * s3 + i3) * s4 + i4) * s5 + i5) /
      (s4 * (s5 * 1)) = ((i0 * s1 + i1) * s2 + i2) * s3 + i3 := by
    have e : s4 * (s5 * 1) = s5 * s4 := by ring
    rw [e, ← Nat.div_div_eq_div_mul, struct_div _ h5, struct_div _ h4]
  have d2 : (((((i0 * s1 + i1) * s2 + i2) * s3 + i3) * s4 + i4) * s5 + i5) /
      (s3 * (s4 * (s5 * 1))) = (i0 * s1 + i1) * s2 + i2 := by
    have e : s3 * (s4 * (s5 * 1)) = s5 * s4 * s3 := by ring
    rw [e, ← Nat.div_div_eq_div_mul, ← Nat.div_div_eq_div_mul, struct_div _ h5,
      struct_div _ h4, struct_div _ h3]
  have d1 : (((((i0 * s1 + i1) * s2 + i2) * s3 + i3) * s4 + i4) * s5 + i5) /
      (s2 * (s3 * (s4 * (s5 * 1)))) = i0 * s1 + i1 := by
    have e : s2 * (s3 * (s4 * (s5 * 1))) = s5 * s4 * s3 * s2 := by ring
    rw [e, ← Nat.div_div_eq_div_mul, ← Nat.div_div_eq_div_mul, ← Nat.div_div_eq_div_mul,
      struct_div _ h5, struct_div _ h4, struct_div _ h3, struct_div _ h2]
  have d0 : (((((i0 * s1 + i1) * s2 + i2) * s3 + i3) * s4 + i4) * s5 + i5) /
      (s1 * (s2 * (s3 * (s4 * (s5 * 1))))) = i0 := by
    have e : s1 * (s2 * (s3 * (s4 * (s5 * 1)))) = s5 * s4 * s3 * s2 * s1 := by ring
    rw [e, ← Nat.div_div_eq_div_mul, ← Nat.div_div_eq_div_mul, ← Nat.div_div_eq_div_mul,
      ← Nat.div_div_eq_div_mul, struct_div _ h5, struct_div _ h4, struct_div _ h3,
      struct_div _ h2, struct_div _ h1]
  simp only [unflattenIdx, List.prod_cons, List.prod_nil]
  rw [d0, d1, d2, d3, d4, Nat.div_one, Nat.mod_eq_of_lt h0, struct_mod _ h1,
    struct_mod _ h2, struct_mod _ h3, struct_mod _ h4, struct_mod _ h5]

/-! ## The ndarray model -/

/-- A numpy ndarray: a shape together with row-major flat data.
Flat indices `≥ shape.prod` are out of range; their values are irrelevant
(array equality is `NpArr.ExtEq`). -/
structure NpArr (α : Type) where
  shape : List Nat
  data : Nat → α

/-- `np.reshape` (size-checked, as in numpy); an invalid reshape poisons the
shape (numpy raises). -/
def NpArr.reshape (s' : List Nat) (a : NpArr α) : NpArr α :=
  if a.shape.prod = s'.prod then ⟨s', a.data⟩ else ⟨[0], a.data⟩

/-- Inverse application of an axis permutation: position `j` of the result
takes the component of `m` at the position where `perm` holds `j`. -/
def unpermute (perm : List Nat) (m : List Nat) : List Nat :=
  (List.range perm.length).map fun j => m.getD (perm.indexOf j) 0

/-- `np.transpose(a, perm)`: axis `i` of the result is axis `perm i` of `a`. -/
def NpArr.transpose (perm : List Nat) (a : NpArr α) : NpArr α :=
  ⟨perm.map fun i => a.shape.getD i 0,
   fun L => a.data (flattenIdx a.shape
     (unpermute perm (unflattenIdx (perm.map fun i => a.shape.getD i 0) L)))⟩

/-- Basic indexing `a[:, j, :, ...]`: select index `j` along axis 1
(the shape drops axis 1; reading position `i0 :: irest` of the result reads
position `i0 :: j :: irest` of `a`). -/
def NpArr.sliceAx1 (a : NpArr α) (j : Nat) : NpArr α :=
  ⟨a.shape.take 1 ++ a.shape.drop 2, fun L =>
    match unflattenIdx (a.shape.take 1 ++ a.shape.drop 2) L with
    | i0 :: irest => a.data (flattenIdx a.shape (i0 :: j :: irest))
    | [] => a.data 0⟩

/-- Elementwise equality of ndarrays: equal shapes and equal entries at every
in-range flat index. -/
def NpArr.ExtEq (a b : NpArr α) : Prop :=
  a.shape = b.shape ∧ ∀ L ∈ List.range a.shape.prod, a.data L = b.data L

instance {α : Type} [DecidableEq α] (a b : NpArr α) : Decidable (a.ExtEq b) := by
  unfold NpArr.ExtEq; infer_instance

/-! ## `np_arr_forward` / `np_arr_backward` (helper.py lines 204-225) -/

/-- The 6-D gather `filt[a + b, c + d, n1, n2]` over the `np.ogrid` grid
`a ∈ [0,k1), b ∈ (0,-k1], c ∈ [0,k2), d ∈ (0,-k2], n1, n2 ∈ [0,n)`:
the ogrid axis for `b` holds values `0, -1, ..., -(k1-1)`, and python's
negative indexing wraps once, so position `b` reads row `(a + (k1 - b)) % k1`
(and similarly for `d`). -/
def npGather6 (filt : NpArr α) (n k1 k2 : Nat) : NpArr α :=
  ⟨[k1, k1, k2, k2, n, n], fun L =>
    match unflattenIdx [k1, k1, k2, k2, n, n] L with
    | [a, b, c, d, n1, n2] =>
        filt.data (flattenIdx filt.shape
          [(a + (k1 - b)) % k1, (c + (k2 - d)) % k2, n1, n2])
    | _ => filt.data 0⟩

/-- helper.py lines 215-225: transforms from filter to block-circulant matrix
representation.  Mirrors
`filt[a+b, c+d, n1, n2].transpose([0,2,1,3,4,5]).reshape([k1*k1, k2*k2, n, n])
 .transpose([2,0,3,1]).reshape([k1*k2*n, k1*k2*n])` (note the source's
`k1*k1` / `k2*k2` in the intermediate reshape). -/
def np_arr_forward (filt : NpArr α) (n k1 k2 : Nat) : NpArr α :=
  ((((npGather6 filt n k1 k2).transpose [0, 2, 1, 3, 4, 5]).reshape
      [k1 * k1, k2 * k2, n, n]).transpose [2, 0, 3, 1]).reshape
    [k1 * k2 * n, k1 * k2 * n]

/-- helper.py lines 204-212: transforms from block-circulant matrix back to
filter representation:
`matrix.reshape([n, k1*k2, n, k1*k2]).transpose([1,3,0,2])[:, 0, :, :]
 .reshape([k1, k2, n, n])`. -/
def np_arr_backward (matrix : NpArr α) (n k1 k2 : Nat) : NpArr α :=
  ((((matrix.reshape [n, k1 * k2, n, k1 * k2]).transpose [1, 3, 0, 2]).sliceAx1
      0).reshape [k1, k2, n, n])

/-! ## Pointwise computation lemmas for the ndarray operations -/

theorem NpArr.reshape_shape {α : Type} {a : NpArr α} {s' : List Nat}
    (h : a.shape.prod = s'.prod) : (a.reshape s').shape = s' := by
  simp [NpArr.reshape, h]

theorem NpArr.reshape_data {α : Type} {a : NpArr α} {s' : List Nat}
    (h : a.shape.prod = s'.prod) (L : Nat) : (a.reshape s').data L = a.data L := by
  simp [NpArr.reshape, h]

theorem NpArr.transpose_shape {α : Type} (perm : List Nat) (a : NpArr α) :
    (a.transpose perm).shape = perm.map fun i => a.shape.getD i 0 := rfl

theorem NpArr.transpose_data {α : Type} (perm : List Nat) (a : NpArr α) (L : Nat) :
    (a.transpose perm).data L =
      a.data (flattenIdx a.shape
        (unpermute perm (unflattenIdx (perm.map fun i => a.shape.getD i 0) L))) := rfl

theorem NpArr.sliceAx1_shape {α : Type} {a : NpArr α} {s0 s1 : Nat} {rest : List Nat}
    (h : a.shape = s0 :: s1 :: rest) (j : Nat) : (a.sliceAx1 j).shape = s0 :: rest := by
  simp [NpArr.sliceAx1, h]

theorem NpArr.sliceAx1_data {α : Type} {a : NpArr α} {s0 s1 : Nat} {rest : List Nat}
    (h : a.shape = s0 :: s1 :: rest) (j L : Nat) :
    (a.sliceAx1 j).data L =
      a.data (flattenIdx a.shape ((L / rest.prod % s0) :: j :: unflattenIdx rest L)) := by
  simp [NpArr.sliceAx1, h, unflattenIdx]

theorem npGather6_data {α : Type} (filt : NpArr α) {n k1 k2 : Nat} {W : Nat}
    {a b c d n1 n2 : Nat} (h : unflattenIdx [k1, k1, k2, k2, n, n] W = [a, b, c, d, n1, n2]) :
    (npGather6 filt n k1 k2).data W =
      filt.data (flattenIdx filt.shape
        [(a + (k1 - b)) % k1, (c + (k2 - d)) % k2, n1, n2]) := by
  simp [npGather6, h]

theorem unpermute_bw (m0 m1 m2 m3 : Nat) :
    unpermute [1, 3, 0, 2] [m0, m1, m2, m3] = [m2, m0, m3, m1] := rfl

theorem unpermute_fw (m0 m1 m2 m3 : Nat) :
    unpermute [2, 0, 3, 1] [m0, m1, m2, m3] = [m1, m3, m0, m2] := rfl

theorem unpermute_gather (m0 m1 m2 m3 m4 m5 : Nat) :
    unpermute [0, 2, 1, 3, 4, 5] [m0, m1, m2, m3, m4, m5] =
      [m0, m2, m1, m3, m4, m5] := rfl

/-- `np_arr_backward` reads, at flat position `L` of the output filter, the
matrix entry in row `n1 * (k1*k2) + u` (channel-in major), column
`n2 * (k1*k2) + 0`, where `u = L / n²`, `n1 = L / n % n`, `n2 = L % n`. -/
theorem np_arr_backward_data {α : Type} (M : NpArr α) (n k1 k2 : Nat)
    (hk1 : 0 < k1) (hk2 : 0 < k2) (hn : 0 < n)
    (hM : M.shape = [k1 * k2 * n, k1 * k2 * n]) (L : Nat) (hL : L < k1 * k2 * (n * n)) :
    (np_arr_backward M n k1 k2).data L =
      M.data (((L / n % n * (k1 * k2) + L / (n * n)) * n + L % n) * (k1 * k2)) := by
  have hK : 0 < k1 * k2 := Nat.mul_pos hk1 hk2
  have hprod : M.shape.prod = ([n, k1 * k2, n, k1 * k2] : List Nat).prod := by
    rw [hM]; simp [List.prod_cons, List.prod_nil]; ring
  have hR1sh : (M.reshape [n, k1 * k2, n, k1 * k2]).shape = [n, k1 * k2, n, k1 * k2] :=
    NpArr.reshape_shape hprod
  set R1 := M.reshape [n, k1 * k2, n, k1 * k2] with hR1
  have hT2sh : (R1.transpose [1, 3, 0, 2]).shape = [k1 * k2, k1 * k2, n, n] := by
    rw [NpArr.transpose_shape, hR1sh]; rfl
  set T2 := R1.transpose [1, 3, 0, 2] with hT2
  have hSsh : (T2.sliceAx1 0).shape = [k1 * k2, n, n] := NpArr.sliceAx1_shape hT2sh 0
  set S := T2.sliceAx1 0 with hS
  have hSprod : S.shape.prod = ([k1, k2, n, n] : List Nat).prod := by
    rw [hSsh]; simp [List.prod_cons, List.prod_nil]; ring
  -- unfold the backward chain
  show (S.reshape [k1, k2, n, n]).data L = _
  rw [NpArr.reshape_data hSprod]
  rw [NpArr.sliceAx1_data hT2sh]
  -- the sliced index
  have hu : L / ([n, n] : List Nat).prod % (k1 * k2) = L / (n * n) := by
    have h1 : ([n, n] : List Nat).prod = n * n := by simp [List.prod_cons, List.prod_nil]
    rw [h1, Nat.mod_eq_of_lt]
    rw [Nat.div_lt_iff_lt_mul (Nat.mul_pos hn hn)]
    omega
  have hun : unflattenIdx [n, n] L = [L / n % n, L % n] := by
    simp [unflattenIdx, List.prod_cons, List.prod_nil, Nat.mul_one, Nat.div_one]
  rw [hu, hun, hT2sh]
  have hfl : flattenIdx [k1 * k2, k1 * k2, n, n] [L / (n * n), 0, L / n % n, L % n] =
      ((L / (n * n) * (k1 * k2) + 0) * n + L / n % n) * n + L % n := flattenIdx_four ..
  rw [hfl]
  rw [NpArr.transpose_data]
  have hmapsh : ([1, 3, 0, 2].map fun i => R1.shape.getD i 0) = [k1 * k2, k1 * k2, n, n]
      := by rw [hR1sh]; rfl
  rw [hmapsh]
  have hdivb : L / (n * n) < k1 * k2 := by
    rw [Nat.div_lt_iff_lt_mul (Nat.mul_pos hn hn)]; omega
  have hun2 : unflattenIdx [k1 * k2, k1 * k2, n, n]
      (((L / (n * n) * (k1 * k2) + 0) * n + L / n % n) * n + L % n) =
      [L / (n * n), 0, L / n % n, L % n] :=
    unflattenIdx_four hdivb hK (Nat.mod_lt _ hn) (Nat.mod_lt _ hn)
  rw [hun2, unpermute_bw, hR1sh]
  have hfl2 : flattenIdx [n, k1 * k2, n, k1 * k2] [L / n % n, L / (n * n), L % n, 0] =
      ((L / n % n * (k1 * k2) + L / (n * n)) * n + L % n) * (k1 * k2) + 0 :=
    flattenIdx_four ..
  rw [hfl2, Nat.add_zero, hR1, NpArr.reshape_data hprod]

/-- The shape of `np_arr_forward` is always `[k1*k2*n, k1*k2*n]` (the gather
fixes the intermediate shape regardless of the input array). -/
theorem np_arr_forward_shape {α : Type} (filt : NpArr α) (n k1 k2 : Nat) :
    (np_arr_forward filt n k1 k2).shape = [k1 * k2 * n, k1 * k2 * n] := by
  have hT0sh : ((npGather6 filt n k1 k2).transpose [0, 2, 1, 3, 4, 5]).shape =
      [k1, k2, k1, k2, n, n] := rfl
  set T0 := (npGather6 filt n k1 k2).transpose [0, 2, 1, 3, 4, 5] with hT0
  have hprod0 : T0.shape.prod = ([k1 * k1, k2 * k2, n, n] : List Nat).prod := by
    rw [hT0sh]; simp [List.prod_cons, List.prod_nil]; ring
  have hR0sh : (T0.reshape [k1 * k1, k2 * k2, n, n]).shape = [k1 * k1, k2 * k2, n, n] :=
    NpArr.reshape_shape hprod0
  set R0 := T0.reshape [k1 * k1, k2 * k2, n, n] with hR0
  have hT1sh : (R0.transpose [2, 0, 3, 1]).shape = [n, k1 * k1, n, k2 * k2] := by
    rw [NpArr.transpose_shape, hR0sh]; rfl
  set T1 := R0.transpose [2, 0, 3, 1] with hT1
  have hprod1 : T1.shape.prod = ([k1 * k2 * n, k1 * k2 * n] : List Nat).prod := by
    rw [hT1sh]; simp [List.prod_cons, List.prod_nil]; ring
  exact NpArr.reshape_shape hprod1

/-- The shape of `np_arr_backward` of a `[k1*k2*n, k1*k2*n]` matrix is
`[k1, k2, n, n]`. -/
theorem np_arr_backward_shape {α : Type} (M : NpArr α) (n k1 k2 : Nat)
    (hM : M.shape = [k1 * k2 * n, k1 * k2 * n]) :
    (np_arr_backward M n k1 k2).shape = [k1, k2, n, n] := by
  have hprod : M.shape.prod = ([n, k1 * k2, n, k1 * k2] : List Nat).prod := by
    rw [hM]; simp [List.prod_cons, List.prod_nil]; ring
  have hR1sh : (M.reshape [n, k1 * k2, n, k1 * k2]).shape = [n, k1 * k2, n, k1 * k2] :=
    NpArr.reshape_shape hprod
  set R1 := M.reshape [n, k1 * k2, n, k1 * k2] with hR1
  have hT2sh : (R1.transpose [1, 3, 0, 2]).shape = [k1 * k2, k1 * k2, n, n] := by
    rw [NpArr.transpose_shape, hR1sh]; rfl
  set T2 := R1.transpose [1, 3, 0, 2] with hT2
  have hSsh : (T2.sliceAx1 0).shape = [k1 * k2, n, n] := NpArr.sliceAx1_shape hT2sh 0
  have hSprod : (T2.sliceAx1 0).shape.prod = ([k1, k2, n, n] : List Nat).prod := by
    rw [hSsh]; simp [List.prod_cons, List.prod_nil]; ring
  exact NpArr.reshape_shape hSprod

/-- Forward entry formula in the square case `k1 = k2 = k`: the matrix entry
at row `n1 * k² + u`, column `n2 * k²` is the filter entry at spatial position
`(u / k, u % k)`, channels `(n1, n2)`. -/
theorem np_arr_forward_data_sq {α : Type} (filt : NpArr α) (k n : Nat)
    (hk : 0 < k) (hsh : filt.shape = [k, k, n, n])
    (u n1 n2 : Nat) (hu : u < k * k) (h1 : n1 < n) (h2 : n2 < n) :
    (np_arr_forward filt n k k).data (((n1 * (k * k) + u) * n + n2) * (k * k)) =
      filt.data ((u * n + n1) * n + n2) := by
  have hK : 0 < k * k := Nat.mul_pos hk hk
  have hT0sh : ((npGather6 filt n k k).transpose [0, 2, 1, 3, 4, 5]).shape =
      [k, k, k, k, n, n] := rfl
  set T0 := (npGather6 filt n k k).transpose [0, 2, 1, 3, 4, 5] with hT0
  have hprod0 : T0.shape.prod = ([k * k, k * k, n, n] : List Nat).prod := by
    rw [hT0sh]; simp [List.prod_cons, List.prod_nil]; ring
  have hR0sh : (T0.reshape [k * k, k * k, n, n]).shape = [k * k, k * k, n, n] :=
    NpArr.reshape_shape hprod0
  set R0 := T0.reshape [k * k, k * k, n, n] with hR0
  have hT1sh : (R0.transpose [2, 0, 3, 1]).shape = [n, k * k, n, k * k] := by
    rw [NpArr.transpose_shape, hR0sh]; rfl
  set T1 := R0.transpose [2, 0, 3, 1] with hT1
  have hprod1 : T1.shape.prod = ([k * k * n, k * k * n] : List Nat).prod := by
    rw [hT1sh]; simp [List.prod_cons, List.prod_nil]; ring
  have hfwd_eq : np_arr_forward filt n k k = T1.reshape [k * k * n, k * k * n] := rfl
  rw [hfwd_eq, NpArr.reshape_data hprod1]
  rw [NpArr.transpose_data]
  have hmapsh : ([2, 0, 3, 1].map fun i => R0.shape.getD i 0) = [n, k * k, n, k * k] := by
    rw [hR0sh]; rfl
  rw [hmapsh]
  have hunY : unflattenIdx [n, k * k, n, k * k] (((n1 * (k * k) + u) * n + n2) * (k * k)) =
      [n1, u, n2, 0] := by
    simpa using unflattenIdx_four h1 hu h2 hK
  rw [hunY, unpermute_fw, hR0sh]
  have hfl : flattenIdx [k * k, k * k, n, n] [u, 0, n1, n2] =
      ((u * (k * k) + 0) * n + n1) * n + n2 := flattenIdx_four ..
  rw [hfl, hR0, NpArr.reshape_data hprod0, NpArr.transpose_data]
  have hmapsh2 : ([0, 2, 1, 3, 4, 5].map fun i => (npGather6 filt n k k).shape.getD i 0) =
      [k, k, k, k, n, n] := rfl
  rw [hmapsh2]
  have hdk : u / k < k := by rw [Nat.div_lt_iff_lt_mul hk]; exact hu
  have hmk : u % k < k := Nat.mod_lt _ hk
  have hZeq : ((u * (k * k) + 0) * n + n1) * n + n2 =
      ((((u / k * k + u % k) * k + 0) * k + 0) * n + n1) * n + n2 := by
    rw [Nat.div_add_mod']; ring
  rw [hZeq]
  have hunZ : unflattenIdx [k, k, k, k, n, n]
      (((((u / k * k + u % k) * k + 0) * k + 0) * n + n1) * n + n2) =
      [u / k, u % k, 0, 0, n1, n2] := unflattenIdx_six hdk hmk hk hk h1 h2
  rw [hunZ, unpermute_gather]
  have hflW : flattenIdx (npGather6 filt n k k).shape [u / k, 0, u % k, 0, n1, n2] =
      ((((u / k * k + 0) * k + u % k) * k + 0) * n + n1) * n + n2 := flattenIdx_six ..
  rw [hflW]
  have hunW : unflattenIdx [k, k, k, k, n, n]
      (((((u / k * k + 0) * k + u % k) * k + 0) * n + n1) * n + n2) =
      [u / k, 0, u % k, 0, n1, n2] := unflattenIdx_six hdk hk hmk hk h1 h2
  rw [npGather6_data filt hunW]
  have hm1 : (u / k + (k - 0)) % k = u / k := by
    rw [Nat.sub_zero, Nat.add_mod_right, Nat.mod_eq_of_lt hdk]
  have hm2 : (u % k + (k - 0)) % k = u % k := by
    rw [Nat.sub_zero, Nat.add_mod_right, Nat.mod_eq_of_lt hmk]
  rw [hm1, hm2, hsh]
  have hflF : flattenIdx [k, k, n, n] [u / k, u % k, n1, n2] =
      ((u / k * k + u % k) * n + n1) * n + n2 := flattenIdx_four ..
  rw [hflF, Nat.div_add_mod']

/-- Forward entry formula for `n = 1` (arbitrary `k1, k2`): entry `(i, j)` of
the block-circulant matrix is the filter entry at spatial position
`((i₁ - j₁) mod k1, (i₂ - j₂) mod k2)` where `i = i₁*k2 + i₂`,
`j = j₁*k2 + j₂`. -/
theorem np_arr_forward_data_one {α : Type} (filt : NpArr α) (k1 k2 : Nat)
    (hk2 : 0 < k2) (hsh : filt.shape = [k1, k2, 1, 1])
    (i j : Nat) (hi : i < k1 * k2) (hj : j < k1 * k2) :
    (np_arr_forward filt 1 k1 k2).data (i * (k1 * k2) + j) =
      filt.data ((i / k2 + (k1 - j / k2)) % k1 * k2 +
        (i % k2 + (k2 - j % k2)) % k2) := by
  have hT0sh : ((npGather6 filt 1 k1 k2).transpose [0, 2, 1, 3, 4, 5]).shape =
      [k1, k2, k1, k2, 1, 1] := rfl
  set T0 := (npGather6 filt 1 k1 k2).transpose [0, 2, 1, 3, 4, 5] with hT0
  have hprod0 : T0.shape.prod = ([k1 * k1, k2 * k2, 1, 1] : List Nat).prod := by
    rw [hT0sh]; simp [List.prod_cons, List.prod_nil]; ring
  have hR0sh : (T0.reshape [k1 * k1, k2 * k2, 1, 1]).shape = [k1 * k1, k2 * k2, 1, 1] :=
    NpArr.reshape_shape hprod0
  set R0 := T0.reshape [k1 * k1, k2 * k2, 1, 1] with hR0
  have hT1sh : (R0.transpose [2, 0, 3, 1]).shape = [1, k1 * k1, 1, k2 * k2] := by
    rw [NpArr.transpose_shape, hR0sh]; rfl
  set T1 := R0.transpose [2, 0, 3, 1] with hT1
  have hprod1 : T1.shape.prod = ([k1 * k2 * 1, k1 * k2 * 1] : List Nat).prod := by
    rw [hT1sh]; simp [List.prod_cons, List.prod_nil]; ring
  have hfwd_eq : np_arr_forward filt 1 k1 k2 = T1.reshape [k1 * k2 * 1, k1 * k2 * 1] := rfl
  rw [hfwd_eq, NpArr.reshape_data hprod1, NpArr.transpose_data]
  have hmapsh : ([2, 0, 3, 1].map fun x => R0.shape.getD x 0) = [1, k1 * k1, 1, k2 * k2]
      := by rw [hR0sh]; rfl
  rw [hmapsh]
  set V := i * (k1 * k2) + j with hV
  have hVlt : V < (k1 * k1) * (k2 * k2) := by
    have : V < (k1 * k2) * (k1 * k2) := struct_bound hi hj
    calc V < (k1 * k2) * (k1 * k2) := this
    _ = (k1 * k1) * (k2 * k2) := by ring
  have hq : V / (k2 * k2) < k1 * k1 := by
    rw [Nat.div_lt_iff_lt_mul (Nat.mul_pos hk2 hk2)]; exact hVlt
  have hr : V % (k2 * k2) < k2 * k2 := Nat.mod_lt _ (Nat.mul_pos hk2 hk2)
  have hVform : ((0 * (k1 * k1) + V / (k2 * k2)) * 1 + 0) * (k2 * k2) + V % (k2 * k2) = V
      := by simp [Nat.div_add_mod']
  rw [← hVform]
  rw [unflattenIdx_four Nat.one_pos hq Nat.one_pos hr, unpermute_fw, hR0sh]
  have hfl : flattenIdx [k1 * k1, k2 * k2, 1, 1]
      [V / (k2 * k2), V % (k2 * k2), 0, 0] =
      ((V / (k2 * k2) * (k2 * k2) + V % (k2 * k2)) * 1 + 0) * 1 + 0 := flattenIdx_four ..
  rw [hfl]
  have hVback : ((V / (k2 * k2) * (k2 * k2) + V % (k2 * k2)) * 1 + 0) * 1 + 0 = V := by
    simp [Nat.div_add_mod']
  rw [hVback, hR0, NpArr.reshape_data hprod0, NpArr.transpose_data]
  have hmapsh2 :
      ([0, 2, 1, 3, 4, 5].map fun x => (npGather6 filt 1 k1 k2).shape.getD x 0) =
      [k1, k2, k1, k2, 1, 1] := rfl
  rw [hmapsh2]
  have ha : i / k2 < k1 := by rw [Nat.div_lt_iff_lt_mul hk2]; exact hi
  have hb : j / k2 < k1 := by rw [Nat.div_lt_iff_lt_mul hk2]; exact hj
  have hc : i % k2 < k2 := Nat.mod_lt _ hk2
  have hd : j % k2 < k2 := Nat.mod_lt _ hk2
  have hVsix :
      ((((((i / k2) * k2 + i % k2) * k1 + j / k2) * k2 + j % k2) * 1 + 0) * 1 + 0) = V := by
    simp only [Nat.mul_one, Nat.add_zero]
    rw [Nat.div_add_mod' i k2]
    have e : (i * k1 + j / k2) * k2 + j % k2 = i * (k1 * k2) + (j / k2 * k2 + j % k2) := by
      ring
    rw [e, Nat.div_add_mod' j k2]
  rw [← hVsix]
  rw [unflattenIdx_six ha hc hb hd Nat.one_pos Nat.one_pos, unpermute_gather]
  have hflW : flattenIdx (npGather6 filt 1 k1 k2).shape
      [i / k2, j / k2, i % k2, j % k2, 0, 0] =
      ((((i / k2 * k1 + j / k2) * k2 + i % k2) * k2 + j % k2) * 1 + 0) * 1 + 0 :=
    flattenIdx_six ..
  rw [hflW]
  have hunW : unflattenIdx [k1, k1, k2, k2, 1, 1]
      (((((i / k2 * k1 + j / k2) * k2 + i % k2) * k2 + j % k2) * 1 + 0) * 1 + 0) =
      [i / k2, j / k2, i % k2, j % k2, 0, 0] :=
    unflattenIdx_six ha hb hc hd Nat.one_pos Nat.one_pos
  rw [npGather6_data filt hunW, hsh]
  have hflF : flattenIdx [k1, k2, 1, 1]
      [(i / k2 + (k1 - j / k2)) % k1, (i % k2 + (k2 - j % k2)) % k2, 0, 0] =
      (((i / k2 + (k1 - j / k2)) % k1 * k2 + (i % k2 + (k2 - j % k2)) % k2) * 1 + 0) * 1
        + 0 := flattenIdx_four ..
  rw [hflF]
  simp [Nat.mul_one, Nat.add_zero]

/-- C1 (amended): the round trip `backward(forward(F)) == F` holds elementwise
exactly for every filter of shape `(k1, k2, n, n)` with `k1 = k2` (any `n`)
and also whenever `n = 1` (any `k1, k2`). -/
theorem C1_amended_roundtrip {α : Type} (k1 k2 n : Nat) (hk1 : 0 < k1)
    (hk2 : 0 < k2) (hn : 0 < n) (hor : k1 = k2 ∨ n = 1) (filt : NpArr α)
    (hsh : filt.shape = [k1, k2, n, n]) :
    (np_arr_backward (np_arr_forward filt n k1 k2) n k1 k2).ExtEq filt := by
  have hM : (np_arr_forward filt n k1 k2).shape = [k1 * k2 * n, k1 * k2 * n] :=
    np_arr_forward_shape ..
  constructor
  · rw [np_arr_backward_shape _ n k1 k2 hM, hsh]
  · intro L hL
    rw [np_arr_backward_shape _ n k1 k2 hM, List.mem_range] at hL
    have hpr : ([k1, k2, n, n] : List Nat).prod = k1 * k2 * (n * n) := by
      simp [List.prod_cons, List.prod_nil]; ring
    rw [hpr] at hL
    rw [np_arr_backward_data _ n k1 k2 hk1 hk2 hn hM L hL]
    rcases hor with hor | hor
    · subst hor
      have hu : L / (n * n) < k1 * k1 := by
        rw [Nat.div_lt_iff_lt_mul (Nat.mul_pos hn hn)]; exact hL
      rw [np_arr_forward_data_sq filt k1 n hk1 hsh (L / (n * n)) (L / n % n) (L % n) hu
        (Nat.mod_lt _ hn) (Nat.mod_lt _ hn)]
      have hid : (L / (n * n) * n + L / n % n) * n + L % n = L := by
        rw [← Nat.div_div_eq_div_mul, Nat.div_add_mod', Nat.div_add_mod']
      rw [hid]
    · subst hor
      have hL' : L < k1 * k2 := by simpa using hL
      have hK : 0 < k1 * k2 := Nat.mul_pos hk1 hk2
      have h0 : ((L / 1 % 1 * (k1 * k2) + L / (1 * 1)) * 1 + L % 1) * (k1 * k2) =
          L * (k1 * k2) + 0 := by
        have hA : L / 1 % 1 = 0 := by omega
        have hB : L / (1 * 1) = L := by omega
        rw [hA, hB, Nat.mod_one]; ring
      rw [h0, np_arr_forward_data_one filt k1 k2 hk2 hsh L 0 hL' hK]
      have hdl : L / k2 < k1 := by rw [Nat.div_lt_iff_lt_mul hk2]; exact hL'
      have e1 : (L / k2 + (k1 - 0 / k2)) % k1 = L / k2 := by
        rw [Nat.zero_div, Nat.sub_zero, Nat.add_mod_right, Nat.mod_eq_of_lt hdl]
      have e2 : (L % k2 + (k2 - 0 % k2)) % k2 = L % k2 := by
        rw [Nat.zero_mod, Nat.sub_zero, Nat.add_mod_right,
          Nat.mod_eq_of_lt (Nat.mod_lt _ hk2)]
      rw [e1, e2, Nat.div_add_mod']

/-- A concrete `(1, 2, 2, 2)` filter holding its own flat index at each cell. -/
def c1CexFilt : NpArr Int := ⟨[1, 2, 2, 2], fun L => (L : Int)⟩

/-- C1 counterexample: for `k1 = 1, k2 = 2, n = 2` (unequal spatial dimensions,
more than one channel) the round trip does NOT return the filter elementwise:
`backward(forward(F))` permutes the entries (at flat position 1 it holds
`F[0,1,0,0] = 4`, not `F[0,0,0,1] = 1`). -/
theorem C1_counterexample :
    ¬ (np_arr_backward (np_arr_forward c1CexFilt 2 1 2) 2 1 2).ExtEq c1CexFilt := by
  decide

/-- A concrete `(2, 2, 3, 3)` filter holding its own flat index at each cell. -/
def c1WitArr : NpArr Int := ⟨[2, 2, 3, 3], fun L => (L : Int)⟩

/-- Witness for C1: the amended round-trip theorem applied at the concrete
shape `(2, 2, 3, 3)`. -/
theorem C1_witness :
    (np_arr_backward (np_arr_forward c1WitArr 3 2 2) 3 2 2).ExtEq c1WitArr :=
  C1_amended_roundtrip 2 2 3 (by decide) (by decide) (by decide) (Or.inl rfl)
    c1WitArr rfl

/-! ## `counter_generator` (helper.py lines 283-300) -/

/-- `arr.tolist()[::-1].index(True)` wrapped in the generator's try/except:
the index of the LAST `true` in `l`, or `none` when there is none (python's
`.index` raises `ValueError`, which ends the generator). -/
def lastTrueIdx (l : List Bool) : Option Nat :=
  match l.reverse.findIdx? (fun b => b) with
  | none => none
  | some j => some (l.length - 1 - j)

/-- One iteration of `counter_generator`'s loop body:
`arr = (maxim - count) > 1`; `lind` = last index where `arr` holds;
`count[lind] += 1; count[lind + 1:] = 0`.  Returns `none` when no index
qualifies (the `ValueError` that ends the generator). -/
def counter_step (maxim count : List Int) : Option (List Int) :=
  match lastTrueIdx ((maxim.zip count).map fun p => decide (p.1 - p.2 > 1)) with
  | none => none
  | some lind =>
      some (count.take lind ++ [count.getD lind 0 + 1] ++
        List.replicate (count.length - lind - 1) 0)

/-- The generator loop; `fuel` bounds the number of iterations (the python
loop ends via `ValueError`; any sufficiently large fuel yields the full
sequence, and the theorems below hold for every sufficient fuel). -/
def counter_gen_loop : Nat → List Int → List Int → List (List Int)
  | 0, _, _ => []
  | fuel + 1, maxim, count =>
      match counter_step maxim count with
      | none => []
      | some c => c :: counter_gen_loop fuel maxim c

/-- helper.py lines 283-300 (`counter_generator`): yields the all-zero vector,
then repeatedly the stepped counter, until no dimension can be incremented. -/
def counter_generator (fuel : Nat) (maxim : List Int) : List (List Int) :=
  List.replicate maxim.length 0 :: counter_gen_loop fuel maxim
    (List.replicate maxim.length 0)

/-! ## `_initializer_Q` (helper.py lines 228-243) -/

/-- helper.py lines 235-237: `a = np.arange(k1*k2).reshape([k1, k2, 1, 1])`;
`bc = np_arr_forward(a, 1, k1, k2)`; `to = bc[0, :]`.  `to_idx k1 k2 i` is
`to[i]`, the entry of `bc` at row 0, column `i`. -/
def to_idx (k1 k2 : Nat) (i : Nat) : Nat :=
  (np_arr_forward (⟨[k1, k2, 1, 1], fun L => L⟩ : NpArr Nat) 1 k1 k2).data
    (0 * (k1 * k2) + i)

/-- helper.py line 239: `np.random.random(k1*k2) - 0.5` is the arbitrary draw
`r` (randomness is a parameter of the model);
`arr = np.asarray([arr[i] if i < to[i] else -arr[to[i]] for i in range(k1*k2)])`
(the comprehension reads the original draw). -/
def init_arr (k1 k2 : Nat) (r : Nat → ℚ) : Nat → ℚ := fun i =>
  if i < to_idx k1 k2 i then r i else -(r (to_idx k1 k2 i))

/-- helper.py line 240: `arr[0] = 0`. -/
def init_arr0 (k1 k2 : Nat) (r : Nat → ℚ) : Nat → ℚ := fun i =>
  if i = 0 then 0 else init_arr k1 k2 r i

/-- helper.py line 241:
`skewsymm = np_arr_forward(arr.reshape(k1, k2, 1, 1), 1, k1, k2)`. -/
def skewsymm (k1 k2 : Nat) (r : Nat → ℚ) : NpArr ℚ :=
  np_arr_forward ⟨[k1, k2, 1, 1], init_arr0 k1 k2 r⟩ 1 k1 k2

/-- The matrix view of the 2-D array `skewsymm` (entry `(i, j)` is flat
position `i * (k1*k2) + j`). -/
def skewsymmM (k1 k2 : Nat) (r : Nat → ℚ) :
    Matrix (Fin (k1 * k2)) (Fin (k1 * k2)) ℚ :=
  Matrix.of fun i j => (skewsymm k1 k2 r).data (i.val * (k1 * k2) + j.val)

/-- `scipy.linalg.inv`, modelled by the adjugate formula (the exact inverse
for invertible matrices; `la.inv` raises on singular input, where this total
function returns a junk value — every use below proves invertibility). -/
def la_inv {N : Nat} (A : Matrix (Fin N) (Fin N) ℚ) : Matrix (Fin N) (Fin N) ℚ :=
  A.det⁻¹ • A.adjugate

/-- helper.py lines 228-243 (`_initializer_Q`): the Cayley transform
`np.matmul(la.inv(I + skewsymm), I - skewsymm)` (the trailing `np.float32`
cast is lossless in this exact-arithmetic model). -/
def initializer_Q (k1 k2 : Nat) (r : Nat → ℚ) :
    Matrix (Fin (k1 * k2)) (Fin (k1 * k2)) ℚ :=
  la_inv (1 + skewsymmM k1 k2 r) * (1 - skewsymmM k1 k2 r)

/-! ## `initializer_W` (helper.py lines 246-262) -/

/-- helper.py lines 246-262 (`initializer_W`): for `n > 1` the Kronecker
product `np.kron(T, Q)` where `T = sog.rvs(n)` — the Haar-random orthogonal
draw from scipy is modelled as the parameter `T` (the spec: "an n×n matrix
drawn uniformly from the orthogonal group") — otherwise `Q` itself.  Indices
are the pair `(channel block, circulant position)`; `np.kron` places entry
`(T i1 j1) * (Q i2 j2)` at row `i1*(k1*k2) + i2`, column `j1*(k1*k2) + j2`,
which is exactly this product indexing; for `n = 1` the product index is the
same relabelling with a constant first component.  `np.float32` casts are
lossless here. -/
def initializer_W (n k1 k2 : Nat) (r : Nat → ℚ) (T : Matrix (Fin n) (Fin n) ℚ) :
    Matrix (Fin n × Fin (k1 * k2)) (Fin n × Fin (k1 * k2)) ℚ :=
  if 1 < n then Matrix.kroneckerMap (· * ·) T (initializer_Q k1 k2 r)
  else Matrix.of fun p q => initializer_Q k1 k2 r p.2 q.2

/-! ## `get_pseudo_orthogonal_block_circulant_initialization`
(helper.py lines 265-280) -/

/-- The dtype tags relevant to the initializer contract. -/
inductive TFDType where
  | float32
  | float64
deriving DecidableEq

/-- A numpy array together with its dtype. -/
structure NpTensor where
  arr : NpArr ℚ
  dtype : TFDType

/-- An `np.float32`-valued array (the cast's rounding is not modelled;
the dtype tag is). -/
def np_float32 (a : NpArr ℚ) : NpTensor := ⟨a, TFDType.float32⟩

/-- The flat 2-D array produced by `initializer_W` (an `np.float32` numpy
array of shape `(n*k1*k2, n*k1*k2)`); entry `(i, j)` sits at flat position
`i * (n*k1*k2) + j`, with `i = i1*(k1*k2) + i2` as in `np.kron`. -/
def initializer_W_np (n k1 k2 : Nat) (r : Nat → ℚ)
    (T : Matrix (Fin n) (Fin n) ℚ) : NpTensor :=
  np_float32 ⟨[n * (k1 * k2), n * (k1 * k2)], fun L =>
    if h : 0 < n ∧ 0 < k1 * k2 then
      initializer_W n k1 k2 r T
        (⟨L / (n * (k1 * k2)) / (k1 * k2) % n, Nat.mod_lt _ h.1⟩,
         ⟨L / (n * (k1 * k2)) % (k1 * k2), Nat.mod_lt _ h.2⟩)
        (⟨L % (n * (k1 * k2)) / (k1 * k2) % n, Nat.mod_lt _ h.1⟩,
         ⟨L % (n * (k1 * k2)) % (k1 * k2), Nat.mod_lt _ h.2⟩)
    else 0⟩

/-- `np_arr_backward` on a dtype-carrying array (index operations preserve
the dtype). -/
def np_arr_backward_t (t : NpTensor) (n k1 k2 : Nat) : NpTensor :=
  ⟨np_arr_backward t.arr n k1 k2, t.dtype⟩

/-- helper.py lines 275-278 (`get_pseudo_orthogonal_uniform`, the callable
returned by `get_pseudo_orthogonal_block_circulant_initialization`): checks
`len(shape) != 4 or shape[2] != shape[3]` and otherwise returns
`np_arr_backward(initializer_W(shape[2], shape[0], shape[1]), shape[2],
shape[0], shape[1])`; the `dtype` argument is accepted (and
`partition_info` ignored) exactly as in the source. -/
def get_pseudo_orthogonal_uniform (r : Nat → ℚ)
    (T : (m : Nat) → Matrix (Fin m) (Fin m) ℚ)
    (shape : List Nat) (dtype : TFDType) : Except String NpTensor :=
  if shape.length ≠ 4 ∨ shape.getD 2 0 ≠ shape.getD 3 0 then
    .error "this is so far only written for 2d convolutions with equal states!"
  else
    .ok (np_arr_backward_t
      (initializer_W_np (shape.getD 2 0) (shape.getD 0 0) (shape.getD 1 0) r
        (T (shape.getD 2 0)))
      (shape.getD 2 0) (shape.getD 0 0) (shape.getD 1 0))

/-! ## Skew-symmetry of the circulant seed (spec 4.3 / claims C3, C4) -/

open Matrix

/-- `to[i]` is the spatial mirror `((-i₁) mod k1, (-i₂) mod k2)` of
`i = i₁*k2 + i₂`. -/
theorem to_idx_eq (k1 k2 : Nat) (hk1 : 0 < k1) (hk2 : 0 < k2) (i : Nat)
    (hi : i < k1 * k2) :
    to_idx k1 k2 i = (k1 - i / k2) % k1 * k2 + (k2 - i % k2) % k2 := by
  unfold to_idx
  rw [np_arr_forward_data_one _ k1 k2 hk2 rfl 0 i (Nat.mul_pos hk1 hk2) hi]
  rw [Nat.zero_div, Nat.zero_mod, Nat.zero_add, Nat.zero_add]

/-- The mirrored index is in range. -/
theorem mirror_lt {k1 k2 : Nat} (hk1 : 0 < k1) (hk2 : 0 < k2) (p s : Nat) :
    p % k1 * k2 + s % k2 < k1 * k2 :=
  struct_bound (Nat.mod_lt _ hk1) (Nat.mod_lt _ hk2)

/-- One-component negation-mod is an involution. -/
theorem neg_mod_invol {k p : Nat} (hp : p < k) : (k - (k - p) % k) % k = p := by
  rcases Nat.eq_zero_or_pos p with h0 | h0
  · subst h0; simp [Nat.mod_self]
  · have h1 : k - p < k := by omega
    rw [Nat.mod_eq_of_lt h1]
    have h2 : k - (k - p) = p := by omega
    rw [h2, Nat.mod_eq_of_lt hp]

/-- One-component negation-mod of a difference:
`-(p - q) ≡ q - p (mod k)`. -/
theorem neg_mod_diff {k p q : Nat} (hp : p < k) (hq : q < k) :
    (k - (p + (k - q)) % k) % k = (q + (k - p)) % k := by
  rcases le_or_lt q p with h | h
  · have e1 : p + (k - q) = k + (p - q) := by omega
    rw [e1, Nat.add_mod_left, Nat.mod_eq_of_lt (by omega : p - q < k)]
    have e3 : q + (k - p) = k - (p - q) := by omega
    rw [e3]
  · have e1 : p + (k - q) = k - (q - p) := by omega
    rw [e1, Nat.mod_eq_of_lt (by omega : k - (q - p) < k)]
    have e3 : k - (k - (q - p)) = q - p := by omega
    rw [e3]
    have e4 : q + (k - p) = k + (q - p) := by omega
    rw [e4, Nat.add_mod_left]

/-- Splitting a mirrored index into its two components. -/
theorem mirror_div {k1 k2 a b : Nat} (hk2 : 0 < k2) (hb : b % k2 < k2) :
    (a % k1 * k2 + b % k2) / k2 = a % k1 :=
  struct_div _ hb

theorem mirror_mod {k1 k2 a b : Nat} (hb : b % k2 < k2) :
    (a % k1 * k2 + b % k2) % k2 = b % k2 :=
  struct_mod _ hb

/-- The spatial mirror map `i ↦ ((-i₁) mod k1, (-i₂) mod k2)` (proof
abbreviation; `to_idx_eq` identifies it with the source's `to` array). -/
def mirrorIdx (k1 k2 i : Nat) : Nat :=
  (k1 - i / k2) % k1 * k2 + (k2 - i % k2) % k2

theorem to_idx_eq_mirror (k1 k2 : Nat) (hk1 : 0 < k1) (hk2 : 0 < k2) (i : Nat)
    (hi : i < k1 * k2) : to_idx k1 k2 i = mirrorIdx k1 k2 i :=
  to_idx_eq k1 k2 hk1 hk2 i hi

theorem mirrorIdx_lt {k1 k2 : Nat} (hk1 : 0 < k1) (hk2 : 0 < k2) (i : Nat) :
    mirrorIdx k1 k2 i < k1 * k2 := mirror_lt hk1 hk2 _ _

theorem mirrorIdx_div {k1 k2 : Nat} (hk2 : 0 < k2) (i : Nat) :
    mirrorIdx k1 k2 i / k2 = (k1 - i / k2) % k1 :=
  struct_div _ (Nat.mod_lt _ hk2)

theorem mirrorIdx_mod {k1 k2 : Nat} (hk2 : 0 < k2) (i : Nat) :
    mirrorIdx k1 k2 i % k2 = (k2 - i % k2) % k2 :=
  struct_mod _ (Nat.mod_lt _ hk2)

theorem mirrorIdx_invol {k1 k2 : Nat} (hk1 : 0 < k1) (hk2 : 0 < k2) {i : Nat}
    (hi : i < k1 * k2) : mirrorIdx k1 k2 (mirrorIdx k1 k2 i) = i := by
  have hdk : i / k2 < k1 := by rw [Nat.div_lt_iff_lt_mul hk2]; exact hi
  rw [show mirrorIdx k1 k2 (mirrorIdx k1 k2 i) =
      (k1 - mirrorIdx k1 k2 i / k2) % k1 * k2 +
        (k2 - mirrorIdx k1 k2 i % k2) % k2 from rfl]
  rw [mirrorIdx_div hk2, mirrorIdx_mod hk2, neg_mod_invol hdk,
    neg_mod_invol (Nat.mod_lt _ hk2), Nat.div_add_mod']

theorem mirrorIdx_zero {k1 k2 : Nat} : mirrorIdx k1 k2 0 = 0 := by
  unfold mirrorIdx
  simp [Nat.mod_self]

theorem mirrorIdx_ne_zero {k1 k2 : Nat} (hk1 : 0 < k1) (hk2 : 0 < k2) {i : Nat}
    (hi : i < k1 * k2) (h : i ≠ 0) : mirrorIdx k1 k2 i ≠ 0 := by
  intro h0
  apply h
  have := mirrorIdx_invol hk1 hk2 hi
  rw [h0, mirrorIdx_zero] at this
  exact this.symm

/-- For odd `k1, k2`, index 0 is the only fixed point of the mirror. -/
theorem mirrorIdx_fix_odd {k1 k2 : Nat} (h1 : Odd k1) (h2 : Odd k2) {i : Nat}
    (hi : i < k1 * k2) (hfix : mirrorIdx k1 k2 i = i) : i = 0 := by
  have hk1 : 0 < k1 := by rcases h1 with ⟨m, hm⟩; omega
  have hk2 : 0 < k2 := by rcases h2 with ⟨m, hm⟩; omega
  have hdk : i / k2 < k1 := by rw [Nat.div_lt_iff_lt_mul hk2]; exact hi
  have hdiv : i / k2 = (k1 - i / k2) % k1 := by
    conv_lhs => rw [← hfix, mirrorIdx_div hk2]
  have hmod : i % k2 = (k2 - i % k2) % k2 := by
    conv_lhs => rw [← hfix, mirrorIdx_mod hk2]
  have hz1 : i / k2 = 0 := by
    rcases Nat.eq_zero_or_pos (i / k2) with h | h
    · exact h
    · exfalso
      rw [Nat.mod_eq_of_lt (by omega : k1 - i / k2 < k1)] at hdiv
      rcases h1 with ⟨m, hm⟩
      omega
  have hz2 : i % k2 = 0 := by
    rcases Nat.eq_zero_or_pos (i % k2) with h | h
    · exact h
    · exfalso
      have hm2 : i % k2 < k2 := Nat.mod_lt _ hk2
      rw [Nat.mod_eq_of_lt (by omega : k2 - i % k2 < k2)] at hmod
      rcases h2 with ⟨m, hm⟩
      omega
  have hdm := Nat.div_add_mod i k2
  rw [hz1, hz2] at hdm
  simpa using hdm.symm

/-- For odd `k1, k2`, the final seed vector is exactly antisymmetric under the
mirror: `arr[to[i]] = -arr[i]`. -/
theorem init_arr0_mirror {k1 k2 : Nat} (h1 : Odd k1) (h2 : Odd k2)
    (r : Nat → ℚ) {i : Nat} (hi : i < k1 * k2) :
    init_arr0 k1 k2 r (mirrorIdx k1 k2 i) = -(init_arr0 k1 k2 r i) := by
  have hk1 : 0 < k1 := by rcases h1 with ⟨m, hm⟩; omega
  have hk2 : 0 < k2 := by rcases h2 with ⟨m, hm⟩; omega
  rcases Nat.eq_zero_or_pos i with h0 | h0
  · subst h0
    rw [mirrorIdx_zero]
    simp [init_arr0]
  · have hne : i ≠ 0 := by omega
    have hmne : mirrorIdx k1 k2 i ≠ 0 := mirrorIdx_ne_zero hk1 hk2 hi hne
    have hmlt : mirrorIdx k1 k2 i < k1 * k2 := mirrorIdx_lt hk1 hk2 i
    have hto_i : to_idx k1 k2 i = mirrorIdx k1 k2 i := to_idx_eq_mirror _ _ hk1 hk2 _ hi
    have hto_m : to_idx k1 k2 (mirrorIdx k1 k2 i) = i := by
      rw [to_idx_eq_mirror _ _ hk1 hk2 _ hmlt, mirrorIdx_invol hk1 hk2 hi]
    rcases lt_trichotomy i (mirrorIdx k1 k2 i) with hlt | heq | hgt
    · -- i keeps its draw; the mirror receives the negation
      unfold init_arr0 init_arr
      rw [if_neg hne, if_neg hmne, hto_i, hto_m, if_pos hlt,
        if_neg (by omega : ¬ mirrorIdx k1 k2 i < i)]
    · exact absurd (mirrorIdx_fix_odd h1 h2 hi heq.symm) hne
    · -- the mirror keeps its draw; i receives the negation
      unfold init_arr0 init_arr
      rw [if_neg hne, if_neg hmne, hto_i, hto_m, if_pos hgt,
        if_neg (by omega : ¬ i < mirrorIdx k1 k2 i), neg_neg]

theorem skewsymmM_apply (k1 k2 : Nat) (hk2 : 0 < k2) (r : Nat → ℚ)
    (i j : Fin (k1 * k2)) :
    skewsymmM k1 k2 r i j = init_arr0 k1 k2 r
      ((i.val / k2 + (k1 - j.val / k2)) % k1 * k2 +
        (i.val % k2 + (k2 - j.val % k2)) % k2) := by
  unfold skewsymmM skewsymm
  rw [Matrix.of_apply]
  exact np_arr_forward_data_one _ k1 k2 hk2 rfl i.val j.val i.isLt j.isLt

/-- Swapping the matrix indices mirrors the gathered seed index. -/
theorem entry_swap {k1 k2 : Nat} (hk1 : 0 < k1) (hk2 : 0 < k2) {i j : Nat}
    (hi : i < k1 * k2) (hj : j < k1 * k2) :
    (j / k2 + (k1 - i / k2)) % k1 * k2 + (j % k2 + (k2 - i % k2)) % k2 =
      mirrorIdx k1 k2
        ((i / k2 + (k1 - j / k2)) % k1 * k2 + (i % k2 + (k2 - j % k2)) % k2) := by
  have hp : i / k2 < k1 := by rw [Nat.div_lt_iff_lt_mul hk2]; exact hi
  have hq : j / k2 < k1 := by rw [Nat.div_lt_iff_lt_mul hk2]; exact hj
  have hs : i % k2 < k2 := Nat.mod_lt _ hk2
  have ht : j % k2 < k2 := Nat.mod_lt _ hk2
  unfold mirrorIdx
  rw [struct_div _ (Nat.mod_lt _ hk2), struct_mod _ (Nat.mod_lt _ hk2)]
  rw [neg_mod_diff hp hq, neg_mod_diff hs ht]

/-- For odd `k1, k2` the circulant seed matrix is exactly skew-symmetric. -/
theorem skewsymmM_skew (k1 k2 : Nat) (h1 : Odd k1) (h2 : Odd k2) (r : Nat → ℚ) :
    (skewsymmM k1 k2 r)ᵀ = -(skewsymmM k1 k2 r) := by
  have hk1 : 0 < k1 := by rcases h1 with ⟨m, hm⟩; omega
  have hk2 : 0 < k2 := by rcases h2 with ⟨m, hm⟩; omega
  ext i j
  rw [Matrix.transpose_apply, Matrix.neg_apply]
  rw [skewsymmM_apply k1 k2 hk2 r j i, skewsymmM_apply k1 k2 hk2 r i j]
  rw [entry_swap hk1 hk2 i.isLt j.isLt]
  exact init_arr0_mirror h1 h2 r (mirror_lt hk1 hk2 _ _)

/-- The circulant seed matrix always has zero diagonal (index 0 of the seed
vector is forced to 0). -/
theorem skewsymmM_diag (k1 k2 : Nat) (hk1 : 0 < k1) (hk2 : 0 < k2) (r : Nat → ℚ)
    (i : Fin (k1 * k2)) : skewsymmM k1 k2 r i i = 0 := by
  rw [skewsymmM_apply k1 k2 hk2 r i i]
  have hp : i.val / k2 < k1 := by rw [Nat.div_lt_iff_lt_mul hk2]; exact i.isLt
  have hs : i.val % k2 < k2 := Nat.mod_lt _ hk2
  have e1 : i.val / k2 + (k1 - i.val / k2) = k1 := by omega
  have e2 : i.val % k2 + (k2 - i.val % k2) = k2 := by omega
  rw [e1, e2, Nat.mod_self, Nat.mod_self]
  simp [init_arr0]

/-- The Cayley transform (computed through the adjugate inverse) of a
skew-symmetric rational matrix is orthogonal. -/
theorem cayley_orthogonal {N : Nat} (S : Matrix (Fin N) (Fin N) ℚ)
    (hskew : Sᵀ = -S) :
    (la_inv (1 + S) * (1 - S))ᵀ * (la_inv (1 + S) * (1 - S)) = 1 := by
  have htr : (1 + S)ᵀ = 1 - S := by
    rw [Matrix.transpose_add, Matrix.transpose_one, hskew, ← sub_eq_add_neg]
  have hdet : (1 + S).det ≠ 0 := by
    intro hd
    obtain ⟨v, hv0, hveq⟩ := Matrix.exists_mulVec_eq_zero_iff.mpr hd
    have h1 : v + S.mulVec v = 0 := by
      simpa [Matrix.add_mulVec, Matrix.one_mulVec] using hveq
    have hx : Matrix.dotProduct v (S.mulVec v) = 0 := by
      have h2 : Matrix.dotProduct v (S.mulVec v) =
          Matrix.dotProduct (Sᵀ.mulVec v) v := by
        rw [Matrix.dotProduct_mulVec, Matrix.mulVec_transpose]
      rw [hskew, Matrix.neg_mulVec, Matrix.neg_dotProduct, Matrix.dotProduct_comm] at h2
      rw [Matrix.dotProduct_comm]
      linarith
    have h4 : Matrix.dotProduct v v = 0 := by
      have h5 := congrArg (Matrix.dotProduct v) h1
      rwa [Matrix.dotProduct_add, Matrix.dotProduct_zero, hx, add_zero] at h5
    exact hv0 (Matrix.dotProduct_self_eq_zero.mp h4)
  have hdeteq : (1 - S).det = (1 + S).det := by rw [← htr, Matrix.det_transpose]
  have hdet2 : (1 - S).det ≠ 0 := by rw [hdeteq]; exact hdet
  have hL1 : la_inv (1 + S) * (1 + S) = 1 := by
    unfold la_inv
    rw [Matrix.smul_mul, Matrix.adjugate_mul, smul_smul, inv_mul_cancel₀ hdet, one_smul]
  have hR1 : (1 + S) * la_inv (1 + S) = 1 := by
    unfold la_inv
    rw [Matrix.mul_smul, Matrix.mul_adjugate, smul_smul, inv_mul_cancel₀ hdet, one_smul]
  have hL2 : la_inv (1 - S) * (1 - S) = 1 := by
    unfold la_inv
    rw [Matrix.smul_mul, Matrix.adjugate_mul, smul_smul, inv_mul_cancel₀ hdet2, one_smul]
  have hinvT : (la_inv (1 + S))ᵀ = la_inv (1 - S) := by
    unfold la_inv
    rw [Matrix.transpose_smul, Matrix.adjugate_transpose, htr, hdeteq]
  have h6 : (1 - S)ᵀ = 1 + S := by
    rw [Matrix.transpose_sub, Matrix.transpose_one, hskew, sub_neg_eq_add]
  have hQT : (la_inv (1 + S) * (1 - S))ᵀ = (1 + S) * la_inv (1 - S) := by
    rw [Matrix.transpose_mul, h6, hinvT]
  rw [hQT]
  have hcommS : (1 - S) * (1 + S) = (1 + S) * (1 - S) := by noncomm_ring
  have hcomm : la_inv (1 + S) * (1 - S) = (1 - S) * la_inv (1 + S) := by
    calc la_inv (1 + S) * (1 - S)
        = la_inv (1 + S) * (1 - S) * ((1 + S) * la_inv (1 + S)) := by
          rw [hR1, mul_one]
      _ = la_inv (1 + S) * ((1 - S) * (1 + S)) * la_inv (1 + S) := by
          rw [← mul_assoc (la_inv (1 + S) * (1 - S)) (1 + S) (la_inv (1 + S)),
            mul_assoc (la_inv (1 + S)) (1 - S) (1 + S)]
      _ = la_inv (1 + S) * ((1 + S) * (1 - S)) * la_inv (1 + S) := by rw [hcommS]
      _ = la_inv (1 + S) * (1 + S) * (1 - S) * la_inv (1 + S) := by
          rw [mul_assoc (la_inv (1 + S)) (1 + S) (1 - S)]
      _ = (1 - S) * la_inv (1 + S) := by rw [hL1, one_mul]
  rw [hcomm]
  rw [← mul_assoc ((1 + S) * la_inv (1 - S)) (1 - S) (la_inv (1 + S)),
    mul_assoc (1 + S) (la_inv (1 - S)) (1 - S), hL2, mul_one, hR1]

/-- For odd `k1, k2`, `_initializer_Q` is exactly orthogonal. -/
theorem initializer_Q_orthogonal (k1 k2 : Nat) (h1 : Odd k1) (h2 : Odd k2)
    (r : Nat → ℚ) :
    (initializer_Q k1 k2 r)ᵀ * initializer_Q k1 k2 r = 1 :=
  cayley_orthogonal _ (skewsymmM_skew k1 k2 h1 h2 r)

/-- For odd `k1, k2` and orthogonal `T`, `initializer_W` is exactly
orthogonal (Kronecker product of orthogonal matrices, resp. `Q` itself for
`n = 1`). -/
theorem initializer_W_orthogonal (n k1 k2 : Nat) (hn : 0 < n) (h1 : Odd k1)
    (h2 : Odd k2) (r : Nat → ℚ) (T : Matrix (Fin n) (Fin n) ℚ)
    (hT : Tᵀ * T = 1) :
    (initializer_W n k1 k2 r T)ᵀ * initializer_W n k1 k2 r T = 1 := by
  have hQ := initializer_Q_orthogonal k1 k2 h1 h2 r
  unfold initializer_W
  by_cases h : 1 < n
  · rw [if_pos h, ← Matrix.kroneckerMap_transpose, ← Matrix.mul_kronecker_mul,
      hT, hQ, Matrix.one_kronecker_one]
  · rw [if_neg h]
    have hn1 : n = 1 := by omega
    subst hn1
    ext p q
    rw [Matrix.mul_apply]
    simp only [Matrix.transpose_apply, Matrix.of_apply]
    rw [Fintype.sum_prod_type, Fin.sum_univ_one]
    have hQe := congrFun (congrFun hQ p.2) q.2
    rw [Matrix.mul_apply] at hQe
    simp only [Matrix.transpose_apply] at hQe
    rw [hQe, Matrix.one_apply, Matrix.one_apply]
    by_cases hpq : p.2 = q.2
    · rw [if_pos hpq, if_pos (Prod.ext (Subsingleton.elim _ _) hpq)]
    · rw [if_neg hpq, if_neg (fun hh => hpq (congrArg Prod.snd hh))]

/-- C2 (amended): `counter_generator([1,2])` yields exactly `[0,0], [0,1]` and
terminates: each dimension `i` ranges over `[0, maxim[i] - 1]` (each step
increments the last dimension whose count satisfies `maxim[i] - count[i] > 1`
and zeroes the later dimensions); the six-vector sequence
`[0,0],[0,1],[0,2],[1,0],[1,1],[1,2]` is produced by `counter_generator([2,3])`.
Both equalities hold for every sufficient fuel. -/
theorem C2_amended :
    (∀ f : Nat, counter_generator (f + 2) [1, 2] = [[0, 0], [0, 1]]) ∧
    (∀ f : Nat, counter_generator (f + 6) [2, 3] =
      [[0, 0], [0, 1], [0, 2], [1, 0], [1, 1], [1, 2]]) := by
  constructor <;> intro f <;> rfl

/-- C2 counterexample: `counter_generator([1,2])` does NOT yield the six
vectors `[0,0]..[1,2]` claimed (it stops after `[0,0], [0,1]`: the step
condition is `maxim[i] - count[i] > 1`, so dimension `i` never reaches
`maxim[i]`). -/
theorem C2_counterexample :
    counter_generator 100 [1, 2] ≠
      [[0, 0], [0, 1], [0, 2], [1, 0], [1, 1], [1, 2]] := by decide

/-- C4 (amended): for ODD `k1, k2` the seed matrix is exactly skew-symmetric
(`S = -Sᵀ`, entrywise by construction: a drawn value is kept exactly when
`i < to[i]`, index 0 is forced to 0) and has zero diagonal. -/
theorem C4_amended (k1 k2 : Nat) (h1 : Odd k1) (h2 : Odd k2) (r : Nat → ℚ) :
    skewsymmM k1 k2 r = -(skewsymmM k1 k2 r)ᵀ ∧
    ∀ i, skewsymmM k1 k2 r i i = 0 := by
  have hk1 : 0 < k1 := by rcases h1 with ⟨m, hm⟩; omega
  have hk2 : 0 < k2 := by rcases h2 with ⟨m, hm⟩; omega
  constructor
  · rw [skewsymmM_skew k1 k2 h1 h2 r, neg_neg]
  · exact skewsymmM_diag k1 k2 hk1 hk2 r

/-- Witness for C4 at `k1 = k2 = 1` with the zero draw. -/
theorem C4_witness :
    skewsymmM 1 1 (fun _ => 0) = -(skewsymmM 1 1 (fun _ => 0))ᵀ ∧
    ∀ i, skewsymmM 1 1 (fun _ => 0) i i = 0 :=
  C4_amended 1 1 ⟨0, by norm_num⟩ ⟨0, by norm_num⟩ (fun _ => 0)

/-- The concrete draw used in the even-size counterexamples:
`r 1 = 2/5` (any other position is irrelevant). -/
def rcex : Nat → ℚ := fun i => if i = 1 then 2 / 5 else 7 / 10

/-- C4 counterexample: for `k1 = 2, k2 = 1` (an even spatial size) the seed
matrix is NOT skew-symmetric: position 1 is its own mirror (`to[1] = 1`), the
code stores `-r 1 = -2/5` there instead of the 0 forced by antisymmetry, and
`S = [[0, -2/5], [-2/5, 0]]` is symmetric, not antisymmetric. -/
theorem C4_counterexample :
    ¬ (skewsymmM 2 1 rcex = -(skewsymmM 2 1 rcex)ᵀ) := by
  intro h
  have h10 := congrFun (congrFun h ⟨1, by omega⟩) ⟨0, by omega⟩
  rw [Matrix.neg_apply, Matrix.transpose_apply] at h10
  have e1 : skewsymmM 2 1 rcex ⟨1, by omega⟩ ⟨0, by omega⟩ = -(2 / 5 : ℚ) := by rfl
  have e2 : skewsymmM 2 1 rcex ⟨0, by omega⟩ ⟨1, by omega⟩ = -(2 / 5 : ℚ) := by rfl
  rw [e1, e2] at h10
  norm_num at h10

/-- Concrete evaluation of the Cayley transform on the (symmetric, NOT
skew-symmetric) 2×2 seed produced for an even spatial size: the `(0,0)` entry
of `QᵀQ - 1` is `800/441`. -/
theorem cayley2_entry (S : Matrix (Fin 2) (Fin 2) ℚ)
    (h00 : S 0 0 = 0) (h01 : S 0 1 = -(2 / 5)) (h10 : S 1 0 = -(2 / 5))
    (h11 : S 1 1 = 0) :
    (((la_inv (1 + S) * (1 - S))ᵀ * (la_inv (1 + S) * (1 - S)) - 1 :
        Matrix (Fin 2) (Fin 2) ℚ)) 0 0 = 800 / 441 := by
  have hA : (1 : Matrix (Fin 2) (Fin 2) ℚ) + S = !![1, -(2 / 5); -(2 / 5), 1] := by
    ext i j
    fin_cases i <;> fin_cases j <;>
      simp [Matrix.add_apply, Matrix.one_apply, h00, h01, h10, h11]
  have hB : (1 : Matrix (Fin 2) (Fin 2) ℚ) - S = !![1, 2 / 5; 2 / 5, 1] := by
    ext i j
    fin_cases i <;> fin_cases j <;>
      simp [Matrix.sub_apply, Matrix.one_apply, h00, h01, h10, h11]
  rw [hA, hB]
  unfold la_inv
  have hdet : (!![1, -(2 / 5 : ℚ); -(2 / 5), 1]).det = 21 / 25 := by
    rw [Matrix.det_fin_two_of]; norm_num
  have hadj : (!![1, -(2 / 5 : ℚ); -(2 / 5), 1]).adjugate = !![1, (2 / 5 : ℚ); 2 / 5, 1]
      := by
    rw [Matrix.adjugate_fin_two_of]; norm_num
  rw [hdet, hadj, Matrix.smul_mul]
  have hmul : (!![1, (2 / 5 : ℚ); 2 / 5, 1]) * !![1, (2 / 5 : ℚ); 2 / 5, 1] =
      !![29 / 25, 4 / 5; 4 / 5, 29 / 25] := by
    rw [Matrix.mul_fin_two]; norm_num
  rw [hmul, Matrix.transpose_smul]
  have hT : (!![29 / 25, (4 : ℚ) / 5; 4 / 5, 29 / 25])ᵀ =
      !![29 / 25, (4 : ℚ) / 5; 4 / 5, 29 / 25] := by
    ext i j
    fin_cases i <;> fin_cases j <;> simp
  rw [hT, Matrix.smul_mul, Matrix.mul_smul]
  have hmul2 : (!![29 / 25, (4 : ℚ) / 5; 4 / 5, 29 / 25]) *
      !![29 / 25, (4 : ℚ) / 5; 4 / 5, 29 / 25] =
      !![1241 / 625, 232 / 125; 232 / 125, 1241 / 625] := by
    rw [Matrix.mul_fin_two]; norm_num
  rw [hmul2, Matrix.sub_apply, Matrix.smul_apply, Matrix.smul_apply,
    Matrix.one_apply_eq]
  norm_num

/-- C3 (amended): for ODD `k1, k2` (in particular all odd sizes ≤ 7) the
matrix `Q = _initializer_Q(k1, k2)` is exactly orthogonal in exact
arithmetic — `QᵀQ = I`, so every entry of `QᵀQ - I` is below the `1e-4`
tolerance — and for every `n ≥ 1` and every orthogonal draw `T` of
`sog.rvs(n)`, the matrix `W = initializer_W(n, k1, k2)` satisfies
`WᵀW = I` exactly. -/
theorem C3_amended (k1 k2 : Nat) (h1 : Odd k1) (h2 : Odd k2) (r : Nat → ℚ) :
    ((initializer_Q k1 k2 r)ᵀ * initializer_Q k1 k2 r = 1 ∧
      ∀ i j, |((initializer_Q k1 k2 r)ᵀ * initializer_Q k1 k2 r - 1) i j| <
        1 / 10000) ∧
    ∀ n : Nat, 0 < n → ∀ T : Matrix (Fin n) (Fin n) ℚ, Tᵀ * T = 1 →
      (initializer_W n k1 k2 r T)ᵀ * initializer_W n k1 k2 r T = 1 := by
  refine ⟨⟨initializer_Q_orthogonal k1 k2 h1 h2 r, ?_⟩, ?_⟩
  · intro i j
    rw [initializer_Q_orthogonal k1 k2 h1 h2 r, sub_self, Matrix.zero_apply,
      abs_zero]
    norm_num
  · intro n hn T hT
    exact initializer_W_orthogonal n k1 k2 hn h1 h2 r T hT

/-- C3 counterexample: for the even size `k1 = 2, k2 = 1` (allowed by the
claim's "every k1, k2 ≤ 7") and the in-range draw `r 1 = 2/5`, the seed is
symmetric instead of skew-symmetric and the Cayley transform is far from
orthogonal: the `(0,0)` entry of `QᵀQ - I` equals `800/441 ≈ 1.814`, so no
norm of `QᵀQ - I` is below `1e-4`. -/
theorem C3_counterexample :
    (1 : ℚ) / 10000 ≤
      |((initializer_Q 2 1 rcex)ᵀ * initializer_Q 2 1 rcex - 1)
        ⟨0, by norm_num⟩ ⟨0, by norm_num⟩| := by
  have key := cayley2_entry (skewsymmM 2 1 rcex) (by rfl) (by rfl) (by rfl) (by rfl)
  have hconn : ((initializer_Q 2 1 rcex)ᵀ * initializer_Q 2 1 rcex - 1)
      ⟨0, by norm_num⟩ ⟨0, by norm_num⟩ =
      (((la_inv (1 + skewsymmM 2 1 rcex) * (1 - skewsymmM 2 1 rcex))ᵀ *
        (la_inv (1 + skewsymmM 2 1 rcex) * (1 - skewsymmM 2 1 rcex)) - 1 :
        Matrix (Fin 2) (Fin 2) ℚ)) 0 0 := rfl
  rw [hconn, key, abs_of_pos (by norm_num : (0:ℚ) < 800 / 441)]
  norm_num

/-- Witness for C3 at `k1 = k2 = 1` (odd), with `n = 2` and `T = I`. -/
theorem C3_witness :
    (initializer_Q 1 1 (fun _ => 0))ᵀ * initializer_Q 1 1 (fun _ => 0) = 1 ∧
    (initializer_W 2 1 1 (fun _ => 0) 1)ᵀ * initializer_W 2 1 1 (fun _ => 0) 1
      = 1 :=
  ⟨(C3_amended 1 1 ⟨0, by norm_num⟩ ⟨0, by norm_num⟩ (fun _ => 0)).1.1,
   (C3_amended 1 1 ⟨0, by norm_num⟩ ⟨0, by norm_num⟩ (fun _ => 0)).2 2
     (by norm_num) 1 (by simp)⟩

/-- C5 (amended): the initializer callable applied to a shape `(k1, k2, n, n)`
returns a tensor of exactly that shape, whose dtype is ALWAYS `float32` (the
`dtype` argument is accepted but ignored by the source); applied to a shape
that is not rank 4 or whose last two dimensions differ, it raises
immediately. -/
theorem C5_amended (r : Nat → ℚ) (T : (m : Nat) → Matrix (Fin m) (Fin m) ℚ)
    (k1 k2 n : Nat) (hk1 : 0 < k1) (hk2 : 0 < k2) (hn : 0 < n)
    (dtype : TFDType) :
    (∃ t, get_pseudo_orthogonal_uniform r T [k1, k2, n, n] dtype = .ok t ∧
      t.arr.shape = [k1, k2, n, n] ∧ t.dtype = TFDType.float32) ∧
    ∀ (shape : List Nat) (dtype' : TFDType),
      shape.length ≠ 4 ∨ shape.getD 2 0 ≠ shape.getD 3 0 →
      get_pseudo_orthogonal_uniform r T shape dtype' =
        .error "this is so far only written for 2d convolutions with equal states!"
    := by
  constructor
  · have hok : get_pseudo_orthogonal_uniform r T [k1, k2, n, n] dtype =
        .ok (np_arr_backward_t (initializer_W_np n k1 k2 r (T n)) n k1 k2) := by
      unfold get_pseudo_orthogonal_uniform
      rw [if_neg (by simp)]
      rfl
    refine ⟨_, hok, ?_, rfl⟩
    show (np_arr_backward (initializer_W_np n k1 k2 r (T n)).arr n k1 k2).shape =
      [k1, k2, n, n]
    apply np_arr_backward_shape
    show [n * (k1 * k2), n * (k1 * k2)] = [k1 * k2 * n, k1 * k2 * n]
    rw [Nat.mul_comm n (k1 * k2)]
  · intro shape dtype' hcond
    unfold get_pseudo_orthogonal_uniform
    rw [if_pos hcond]

/-- C5 counterexample: the callable invoked with shape `(3,3,4,4)` and
requested dtype `float64` does NOT return a `float64` tensor — the source
never reads its `dtype` argument and returns the `np.float32` array built by
`initializer_W`. -/
theorem C5_counterexample :
    ¬ ((get_pseudo_orthogonal_uniform (fun _ => 0) (fun _ => 1) [3, 3, 4, 4]
        TFDType.float64).map NpTensor.dtype = .ok TFDType.float64) := by
  intro h
  have hok : (get_pseudo_orthogonal_uniform (fun _ => 0) (fun _ => 1) [3, 3, 4, 4]
      TFDType.float64).map NpTensor.dtype = .ok TFDType.float32 := rfl
  rw [hok] at h
  injection h with h'
  exact TFDType.noConfusion h'

/-- Witness for C5 at shape `(3,3,4,4)` (success side) and `(3,3,4,5)`
(error side). -/
theorem C5_witness :
    (∃ t, get_pseudo_orthogonal_uniform (fun _ => 0) (fun _ => 1) [3, 3, 4, 4]
      TFDType.float32 = .ok t ∧ t.arr.shape = [3, 3, 4, 4] ∧
      t.dtype = TFDType.float32) ∧
    get_pseudo_orthogonal_uniform (fun _ => 0) (fun _ => 1) [3, 3, 4, 5]
      TFDType.float32 =
      .error "this is so far only written for 2d convolutions with equal states!"
    :=
  ⟨(C5_amended (fun _ => 0) (fun _ => 1) 3 3 4 (by decide) (by decide) (by decide)
      TFDType.float32).1,
   (C5_amended (fun _ => 0) (fun _ => 1) 3 3 4 (by decide) (by decide) (by decide)
      TFDType.float32).2 [3, 3, 4, 5] TFDType.float32 (by decide)⟩

/-! ## `convolution_helper_padding_same` (helper.py lines 84-137)

The tensors are symbolic: the embedding records which TF primitive the helper
invokes and with which shape/stride arguments.  Python floats are modelled
exactly as ℚ.  The caller's two list arguments (`strides`, `filter_shape`)
are python objects; to make mutation observable they live in two typed
heaps (`σs`, `σf`) addressed by `sref`, `fref`; `copy.copy` allocates a new
cell and `list.insert` updates a cell, exactly where the source does. -/

/-- Python `int()` truncation (toward zero) of a float. -/
def pyInt (q : ℚ) : ℚ :=
  if q < 0 then -((Int.floor (-q) : ℤ) : ℚ) else ((Int.floor q : ℤ) : ℚ)

/-- `np.round`: round half to even. -/
def npRound (q : ℚ) : Int :=
  if q - Int.floor q < 1 / 2 then Int.floor q
  else if 1 / 2 < q - Int.floor q then Int.floor q + 1
  else if Int.floor q % 2 = 0 then Int.floor q else Int.floor q + 1

/-- A dimension of the computed `output_shape` list: a static integer, or the
dynamic batch size `tf.shape(inp)[0]`. -/
inductive ConvDim where
  | const : Int → ConvDim
  | dynBatch : ConvDim
deriving DecidableEq

/-- The python exceptions the helper can raise. -/
inductive ConvErr where
  | mixedStride
  | unsupportedRank
  | typeError
  | zeroDiv
  | indexError
deriving DecidableEq

/-- A python stride list: entries are `None` or a float. -/
abbrev Strides := List (Option ℚ)

/-- The symbolic convolution call the helper returns: which TF primitive is
invoked and with which arguments (`t2d`'s three `Option` payloads are the
1-D special case's filter/input reshape lists and trailing output reshape,
`none` outside that case). -/
inductive ConvCall where
  | std (strides : Strides)
  | t2d (filtPerm : List Nat) (filtReshape : Option (List Int))
      (inpReshape : Option (List Int)) (outShape : List ConvDim)
      (strides : List ℚ) (outerReshape : Option (List ConvDim))
  | t3d (filtPerm : List Nat) (outShape : List ConvDim) (strides : List ℚ)
deriving DecidableEq

/-- Lines 104-105: `np.round([1 / s * o if s is not None else o
for s, o in zip(strides, output_shape[1:-1])])` (elementwise;
`1 / 0.0` raises ZeroDivisionError). -/
def computeSpatial : Strides → List Int → Except ConvErr (List Int)
  | none :: ss, o :: os =>
      match computeSpatial ss os with
      | .error e => .error e
      | .ok rest => .ok (o :: rest)
  | some q :: ss, o :: os =>
      if q = 0 then .error .zeroDiv
      else
        match computeSpatial ss os with
        | .error e => .error e
        | .ok rest => .ok (npRound (1 / q * (o : ℚ)) :: rest)
  | _, _ => .ok []

/-- Lines 131 and 136: `[int(1 / s) if s < 1 else s for s in strides]`
(`None < 1` raises TypeError, `1 / 0.0` raises ZeroDivisionError). -/
def convertStrides : Strides → Except ConvErr (List ℚ)
  | [] => .ok []
  | none :: _ => .error .typeError
  | some s :: rest =>
      if s < 1 then
        if s = 0 then .error .zeroDiv
        else
          match convertStrides rest with
          | .error e => .error e
          | .ok r => .ok (pyInt (1 / s) :: r)
      else
        match convertStrides rest with
        | .error e => .error e
        | .ok r => .ok (s :: r)

/-- Python `lst.insert(i, x)`. -/
def pyInsert (l : List α) (i : Nat) (x : α) : List α := l.take i ++ x :: l.drop i

/-- `np.min` over the nonempty list `x :: xs`. -/
def npMin (x : ℚ) (xs : List ℚ) : ℚ := xs.foldl min x

/-- `np.max` over the nonempty list `x :: xs`. -/
def npMax (x : ℚ) (xs : List ℚ) : ℚ := xs.foldl max x

/-- helper.py lines 84-137 (`convolution_helper_padding_same`).
`inpShape` is `inp.get_shape().as_list()` (`none` = dynamic dimension);
the result is the chosen convolution call (or the raised exception)
together with the two heaps after the call. -/
def convolution_helper_padding_same (inpShape : List (Option Int))
    (σs : List Strides) (σf : List (List Int)) (sref fref : Nat) :
    Except ConvErr ConvCall × List Strides × List (List Int) :=
  let strides := σs.getD sref []
  let filter_shape := σf.getD fref []
  -- line 97: `if not strides or len([s for s in strides if s is not None]) == 0
  --           or np.min([...]) >= 1: return tf.nn.convolution(...)`
  if strides = [] then (.ok (.std strides), σs, σf)
  else
    match strides.filterMap id with
    | [] => (.ok (.std strides), σs, σf)
    | m :: ms =>
      if 1 ≤ npMin m ms then (.ok (.std strides), σs, σf)
      -- line 101: `if np.max([...]) > 1: raise`
      else if 1 < npMax m ms then (.error .mixedStride, σs, σf)
      else
        -- line 103: `output_shape = [ii if ii is not None else -1 for ii in ...]`
        let os0 : List Int := inpShape.map (fun oi => oi.getD (-1))
        -- lines 104-105: `output_shape[1:-1] = np.int32(np.round([...]))`
        match computeSpatial strides ((os0.drop 1).take (os0.length - 2)) with
        | .error e => (.error e, σs, σf)
        | .ok newSpatial =>
          -- line 106: `output_shape[-1] = filter_shape[-1]`
          match filter_shape.getLast? with
          | none => (.error .indexError, σs, σf)
          | some chLast =>
            let os1 : List ConvDim :=
              (os0.take 1).map ConvDim.const ++ newSpatial.map ConvDim.const ++
                (os0.drop (os0.length - 1)).map ConvDim.const
            if os1 = [] then (.error .indexError, σs, σf)
            else
              let os2 := os1.set (os1.length - 1) (ConvDim.const chLast)
              -- line 107: `output_shape[0] = tf.shape(inp)[0]`
              let os3 := os2.set 0 ConvDim.dynBatch
              -- line 108: `filter_shape = copy.copy(filter_shape)` (allocates)
              let σf1 := σf ++ [filter_shape]
              let n := filter_shape.length
              -- line 111: `tf.transpose(convolution_filter, [0..n-3] + [n-1, n-2])`
              let perm := List.range (n - 2) ++ [n - 1, n - 2]
              -- line 112: `filter_shape = filter_shape[:-2] + filter_shape[-2:][::-1]`
              -- (a fresh python list; mutated at line 128, hence allocated)
              let fsSwapped := filter_shape.take (n - 2) ++
                (filter_shape.drop (n - 2)).reverse
              let σf2 := σf1 ++ [fsSwapped]
              let fref2 := σf1.length
              -- lines 114-120: op selection by `len(filter_shape)`
              if n < 5 then
                -- line 122: `if len(filter_shape) == 3:` (1-D special case)
                if n = 3 then
                  let old_output_shape := os3
                  let n_input_shape := inpShape.map (fun oi => oi.getD (-1))
                  let n_input_shape1 := pyInsert n_input_shape 1 1
                  let os4 := pyInsert os3 1 (ConvDim.const 1)
                  -- line 128: `filter_shape.insert(0, 1)` (mutates the cell)
                  let fsB := pyInsert (σf2.getD fref2 []) 0 1
                  let σf3 := σf2.set fref2 fsB
                  -- lines 129-130: `strides = copy.copy(strides)` (allocates);
                  -- `strides.insert(0, 1)` (mutates the new cell)
                  let σs1 := σs ++ [strides]
                  let cref := σs.length
                  let σs2 := σs1.set cref (pyInsert strides 0 (some 1))
                  -- line 131: `strides = [1] + [int(1/s) if s<1 else s ...] + [1]`
                  match convertStrides (σs2.getD cref []) with
                  | .error e => (.error e, σs2, σf3)
                  | .ok conv =>
                    (.ok (.t2d perm (some fsB) (some n_input_shape1) os4
                      (1 :: conv ++ [1]) (some old_output_shape)), σs2, σf3)
                else
                  -- line 136: `strides = [1] + [... for s in copy.copy(strides)] + [1]`
                  match convertStrides strides with
                  | .error e => (.error e, σs, σf2)
                  | .ok conv =>
                    (.ok (.t2d perm none none os3 (1 :: conv ++ [1]) none), σs, σf2)
              else if n = 5 then
                match convertStrides strides with
                | .error e => (.error e, σs, σf2)
                | .ok conv => (.ok (.t3d perm os3 (1 :: conv ++ [1])), σs, σf2)
              else (.error .unsupportedRank, σs, σf2)

/-! ## Auxiliary lemmas for the convolution helper -/

theorem pyGetD_append_left {α : Type} (l l' : List α) (i : Nat) (d : α)
    (h : i < l.length) : (l ++ l').getD i d = l.getD i d := by
  rw [List.getD_eq_getElem?_getD, List.getD_eq_getElem?_getD, List.getElem?_append,
    if_pos h]

theorem pyGetD_concat_self {α : Type} (l : List α) (x d : α) :
    (l ++ [x]).getD l.length d = x := by
  rw [List.getD_eq_getElem?_getD, List.getElem?_append_right (le_refl _)]
  simp

theorem pyGetD_set_self {α : Type} (l : List α) (i : Nat) (x d : α)
    (h : i < l.length) : (l.set i x).getD i d = x := by
  rw [List.getD_eq_getElem?_getD, List.getElem?_set_self]
  · simp
  · exact h

theorem pyGetD_set_ne {α : Type} (l : List α) (i j : Nat) (x d : α) (h : i ≠ j) :
    (l.set i x).getD j d = l.getD j d := by
  rw [List.getD_eq_getElem?_getD, List.getD_eq_getElem?_getD, List.getElem?_set_ne h]

theorem pySet_concat_last {α : Type} (l : List α) (x y : α) :
    (l ++ [x]).set l.length y = l ++ [y] := by
  rw [List.set_append_right _ _ (le_refl _)]
  simp

theorem npMin_le_init (x : ℚ) (xs : List ℚ) : npMin x xs ≤ x := by
  induction xs generalizing x with
  | nil => simp [npMin]
  | cons y ys ih =>
    show npMin (min x y) ys ≤ x
    exact le_trans (ih (min x y)) (min_le_left x y)

theorem npMin_le_mem (x : ℚ) (xs : List ℚ) {q : ℚ} (h : q ∈ xs) :
    npMin x xs ≤ q := by
  induction xs generalizing x with
  | nil => cases h
  | cons y ys ih =>
    show npMin (min x y) ys ≤ q
    rcases List.mem_cons.mp h with hq | h'
    · rw [hq]
      exact le_trans (npMin_le_init _ ys) (min_le_right _ _)
    · exact ih (min x y) h'

theorem npMin_le (x : ℚ) (xs : List ℚ) {q : ℚ} (h : q ∈ x :: xs) :
    npMin x xs ≤ q := by
  rcases List.mem_cons.mp h with rfl | h'
  · exact npMin_le_init _ xs
  · exact npMin_le_mem x xs h'

theorem npMax_le {c : ℚ} (x : ℚ) (xs : List ℚ) (hx : x ≤ c)
    (hxs : ∀ q ∈ xs, q ≤ c) : npMax x xs ≤ c := by
  induction xs generalizing x with
  | nil => simpa [npMax] using hx
  | cons y ys ih =>
    show npMax (max x y) ys ≤ c
    exact ih (max x y) (max_le hx (hxs y (List.mem_cons_self y ys)))
      (fun q hq => hxs q (List.mem_cons_of_mem y hq))

theorem le_npMax_init (x : ℚ) (xs : List ℚ) : x ≤ npMax x xs := by
  induction xs generalizing x with
  | nil => simp [npMax]
  | cons y ys ih =>
    show x ≤ npMax (max x y) ys
    exact le_trans (le_max_left x y) (ih (max x y))

theorem le_npMax_mem (x : ℚ) (xs : List ℚ) {q : ℚ} (h : q ∈ xs) :
    q ≤ npMax x xs := by
  induction xs generalizing x with
  | nil => cases h
  | cons y ys ih =>
    show q ≤ npMax (max x y) ys
    rcases List.mem_cons.mp h with hq | h'
    · rw [hq]
      exact le_trans (le_max_right _ _) (le_npMax_init _ ys)
    · exact ih (max x y) h'

theorem le_npMax (x : ℚ) (xs : List ℚ) {q : ℚ} (h : q ∈ x :: xs) :
    q ≤ npMax x xs := by
  rcases List.mem_cons.mp h with rfl | h'
  · exact le_npMax_init _ xs
  · exact le_npMax_mem x xs h'

/-- `computeSpatial` on an all-`some`, zero-free stride list divides each
spatial dimension by its stride and rounds. -/
theorem computeSpatial_map_some (qs : List ℚ) (os : List Int)
    (h : ∀ q ∈ qs, q ≠ 0) :
    computeSpatial (qs.map some) os =
      .ok ((qs.zip os).map fun p => npRound (1 / p.1 * (p.2 : ℚ))) := by
  induction qs generalizing os with
  | nil => simp [computeSpatial]
  | cons q qs ih =>
    cases os with
    | nil => simp [computeSpatial]
    | cons o os =>
      show computeSpatial (some q :: qs.map some) (o :: os) = _
      rw [computeSpatial, if_neg (h q (List.mem_cons_self q qs))]
      rw [ih os (fun q' hq' => h q' (List.mem_cons_of_mem q hq'))]
      simp [List.zip_cons_cons]

/-- `convertStrides` on an all-`some`, zero-free stride list truncates the
reciprocal of strides `< 1` and passes the others through. -/
theorem convertStrides_map_some (qs : List ℚ) (h : ∀ q ∈ qs, q ≠ 0) :
    convertStrides (qs.map some) =
      .ok (qs.map fun q => if q < 1 then pyInt (1 / q) else q) := by
  induction qs with
  | nil => simp [convertStrides]
  | cons q qs ih =>
    show convertStrides (some q :: qs.map some) = _
    rw [convertStrides]
    by_cases hq : q < 1
    · rw [if_pos hq, if_neg (h q (List.mem_cons_self q qs))]
      rw [ih (fun q' hq' => h q' (List.mem_cons_of_mem q hq'))]
      simp [if_pos hq]
    · rw [if_neg hq]
      rw [ih (fun q' hq' => h q' (List.mem_cons_of_mem q hq'))]
      simp [if_neg hq]

theorem filterMap_id_map_some (qs : List ℚ) : (qs.map some).filterMap id = qs := by
  induction qs with
  | nil => rfl
  | cons q qs ih => simp [ih]

theorem map_getD_map_some (l : List Int) :
    (l.map some).map (fun oi => oi.getD (-1)) = l := by
  induction l with
  | nil => rfl
  | cons x xs ih => simp [ih]

theorem os3_eval (b0' : Int) (mids : List Int) (ch : Int) (sp : List ConvDim) (c : ConvDim) :
    (((((b0' :: (mids ++ [ch])).take 1).map ConvDim.const ++ sp ++
       ((b0' :: (mids ++ [ch])).drop ((b0' :: (mids ++ [ch])).length - 1)).map ConvDim.const).set
      ((((b0' :: (mids ++ [ch])).take 1).map ConvDim.const ++ sp ++
        ((b0' :: (mids ++ [ch])).drop
          ((b0' :: (mids ++ [ch])).length - 1)).map ConvDim.const).length - 1) c).set
      0 ConvDim.dynBatch) =
    ConvDim.dynBatch :: (sp ++ [c]) := by
  have hC : (b0' :: (mids ++ [ch])).drop ((b0' :: (mids ++ [ch])).length - 1) = [ch] := by
    have h1 : (b0' :: (mids ++ [ch])).length - 1 = mids.length + 1 := by simp
    rw [h1]
    show (mids ++ [ch]).drop mids.length = [ch]
    exact List.drop_left mids [ch]
  rw [hC]
  show (((ConvDim.const b0' :: sp) ++ [ConvDim.const ch]).set
      (((ConvDim.const b0' :: sp) ++ [ConvDim.const ch]).length - 1) c).set
      0 ConvDim.dynBatch = _
  have h2 : ((ConvDim.const b0' :: sp) ++ [ConvDim.const ch]).length - 1 =
      (ConvDim.const b0' :: sp).length := by simp
  rw [h2, pySet_concat_last]
  rfl

theorem conv_frac
    (σs : List Strides) (σf : List (List Int)) (sref fref : Nat)
    (qs : List ℚ) (b0 : Option Int) (mids : List Int) (ch : Int) (fs : List Int)
    (hst : σs.getD sref [] = qs.map some)
    (hpos : ∀ q ∈ qs, 0 < q) (hle : ∀ q ∈ qs, q ≤ 1)
    (q0 : ℚ) (hq0 : q0 ∈ qs) (hq0lt : q0 < 1)
    (hlen : qs.length = mids.length)
    (hfs : σf.getD fref [] = fs) (hne : fs ≠ []) :
    (6 ≤ fs.length →
      convolution_helper_padding_same (b0 :: (mids.map some ++ [some ch])) σs σf sref fref =
        (.error .unsupportedRank, σs, (σf ++ [fs]) ++ [(fs.take (fs.length - 2) ++ (fs.drop (fs.length - 2)).reverse)])) ∧
    (fs.length = 5 →
      convolution_helper_padding_same (b0 :: (mids.map some ++ [some ch])) σs σf sref fref =
        (.ok (.t3d (List.range (fs.length - 2) ++ [fs.length - 1, fs.length - 2])
          (ConvDim.dynBatch :: ((((qs).zip mids).map (fun p => npRound (1 / p.1 * (p.2 : ℚ)))).map ConvDim.const ++ [ConvDim.const (fs.getLast hne)]))
          (1 :: (qs.map (fun q => if q < 1 then pyInt (1 / q) else q)) ++ [1])),
         σs, (σf ++ [fs]) ++ [(fs.take (fs.length - 2) ++ (fs.drop (fs.length - 2)).reverse)])) ∧
    (fs.length < 5 → fs.length ≠ 3 →
      convolution_helper_padding_same (b0 :: (mids.map some ++ [some ch])) σs σf sref fref =
        (.ok (.t2d (List.range (fs.length - 2) ++ [fs.length - 1, fs.length - 2]) none none
          (ConvDim.dynBatch :: ((((qs).zip mids).map (fun p => npRound (1 / p.1 * (p.2 : ℚ)))).map ConvDim.const ++ [ConvDim.const (fs.getLast hne)]))
          (1 :: (qs.map (fun q => if q < 1 then pyInt (1 / q) else q)) ++ [1]) none),
         σs, (σf ++ [fs]) ++ [(fs.take (fs.length - 2) ++ (fs.drop (fs.length - 2)).reverse)])) ∧
    (fs.length = 3 →
      convolution_helper_padding_same (b0 :: (mids.map some ++ [some ch])) σs σf sref fref =
        (.ok (.t2d (List.range (fs.length - 2) ++ [fs.length - 1, fs.length - 2])
          (some (1 :: (fs.take (fs.length - 2) ++ (fs.drop (fs.length - 2)).reverse)))
          (some (b0.getD (-1) :: (1 : Int) :: (mids ++ [ch])))
          (ConvDim.dynBatch :: ConvDim.const 1 ::
            ((((qs).zip mids).map (fun p => npRound (1 / p.1 * (p.2 : ℚ)))).map ConvDim.const ++
              [ConvDim.const (fs.getLast hne)]))
          (1 :: ((((1 : ℚ) :: qs)).map (fun q => if q < 1 then pyInt (1 / q) else q)) ++ [1])
          (some (ConvDim.dynBatch :: ((((qs).zip mids).map (fun p => npRound (1 / p.1 * (p.2 : ℚ)))).map ConvDim.const ++ [ConvDim.const (fs.getLast hne)])))),
         (σs ++ [qs.map some]).set σs.length (some 1 :: qs.map some),
         ((σf ++ [fs]) ++ [(fs.take (fs.length - 2) ++ (fs.drop (fs.length - 2)).reverse)]).set (σf ++ [fs]).length (1 :: (fs.take (fs.length - 2) ++ (fs.drop (fs.length - 2)).reverse)))) := by
  refine ⟨fun h6 => ?_, fun h5 => ?_, fun h45 h3 => ?_, fun h3 => ?_⟩
  have hnz : ∀ q ∈ qs, q ≠ 0 := fun q hq => ne_of_gt (hpos q hq)
  obtain ⟨m, ms, rfl⟩ : ∃ m ms, qs = m :: ms := by
    cases qs with
    | nil => exact absurd hq0 (List.not_mem_nil _)
    | cons a b => exact ⟨a, b, rfl⟩
  simp only [convolution_helper_padding_same]
  split
  · rename_i hemp
    rw [hst] at hemp
    simp at hemp
  · split
    · rename_i hemp2
      rw [hst, filterMap_id_map_some] at hemp2
      cases hemp2
    · rename_i m2 ms2 hcons
      rw [hst, filterMap_id_map_some] at hcons
      injection hcons with e1 e2
      subst e1; subst e2
      have hminlt : ¬ 1 ≤ npMin m ms := by
        have := npMin_le m ms hq0
        intro hcon
        linarith
      have hmaxle : ¬ 1 < npMax m ms := by
        have := npMax_le m ms (hle m (List.mem_cons_self m ms))
          (fun q hq => hle q (List.mem_cons_of_mem m hq))
        intro hcon
        linarith
      rw [if_neg hminlt, if_neg hmaxle]
      have hos0 : (b0 :: (mids.map some ++ [some ch])).map (fun oi => oi.getD (-1)) =
          b0.getD (-1) :: (mids ++ [ch]) := by
        rw [List.map_cons, List.map_append, map_getD_map_some]
        rfl
      rw [hst, hos0]
      have hsparg : ((b0.getD (-1) :: (mids ++ [ch])).drop 1).take
          ((b0.getD (-1) :: (mids ++ [ch])).length - 2) = mids := by
        have h1 : (b0.getD (-1) :: (mids ++ [ch])).length - 2 = mids.length := by simp
        rw [h1]
        exact List.take_left mids [ch]
      rw [hsparg, computeSpatial_map_some (m :: ms) mids hnz]
      split
      · rename_i e heq
        exact Except.noConfusion heq
      · rename_i sp heq
        injection heq with hsp
        subst hsp
        rw [hfs]
        have hlast : fs.getLast? = some (fs.getLast hne) := List.getLast?_eq_getLast fs hne
        rw [hlast]
        split
        · rename_i heq2
          exact Option.noConfusion heq2
        · rename_i chL heq2
          injection heq2 with hchL
          subst hchL
          rw [if_neg (by simp)]
          rw [if_neg (by omega), if_neg (by omega)]
  have hnz : ∀ q ∈ qs, q ≠ 0 := fun q hq => ne_of_gt (hpos q hq)
  obtain ⟨m, ms, rfl⟩ : ∃ m ms, qs = m :: ms := by
    cases qs with
    | nil => exact absurd hq0 (List.not_mem_nil _)
    | cons a b => exact ⟨a, b, rfl⟩
  simp only [convolution_helper_padding_same]
  split
  · rename_i hemp
    rw [hst] at hemp
    simp at hemp
  · split
    · rename_i hemp2
      rw [hst, filterMap_id_map_some] at hemp2
      cases hemp2
    · rename_i m2 ms2 hcons
      rw [hst, filterMap_id_map_some] at hcons
      injection hcons with e1 e2
      subst e1; subst e2
      have hminlt : ¬ 1 ≤ npMin m ms := by
        have := npMin_le m ms hq0
        intro hcon
        linarith
      have hmaxle : ¬ 1 < npMax m ms := by
        have := npMax_le m ms (hle m (List.mem_cons_self m ms))
          (fun q hq => hle q (List.mem_cons_of_mem m hq))
        intro hcon
        linarith
      rw [if_neg hminlt, if_neg hmaxle]
      have hos0 : (b0 :: (mids.map some ++ [some ch])).map (fun oi => oi.getD (-1)) =
          b0.getD (-1) :: (mids ++ [ch]) := by
        rw [List.map_cons, List.map_append, map_getD_map_some]
        rfl
      rw [hst, hos0]
      have hsparg : ((b0.getD (-1) :: (mids ++ [ch])).drop 1).take
          ((b0.getD (-1) :: (mids ++ [ch])).length - 2) = mids := by
        have h1 : (b0.getD (-1) :: (mids ++ [ch])).length - 2 = mids.length := by simp
        rw [h1]
        exact List.take_left mids [ch]
      rw [hsparg, computeSpatial_map_some (m :: ms) mids hnz]
      split
      · rename_i e heq
        exact Except.noConfusion heq
      · rename_i sp heq
        injection heq with hsp
        subst hsp
        rw [hfs]
        have hlast : fs.getLast? = some (fs.getLast hne) := List.getLast?_eq_getLast fs hne
        rw [hlast]
        split
        · rename_i heq2
          exact Option.noConfusion heq2
        · rename_i chL heq2
          injection heq2 with hchL
          subst hchL
          rw [if_neg (by simp)]
          rw [if_neg (by omega), if_pos h5]
          rw [convertStrides_map_some (m :: ms) hnz]
          split
          · rename_i e heq3
            exact Except.noConfusion heq3
          · rename_i conv heq3
            injection heq3 with hconv
            subst hconv
            rw [os3_eval]
  have hnz : ∀ q ∈ qs, q ≠ 0 := fun q hq => ne_of_gt (hpos q hq)
  obtain ⟨m, ms, rfl⟩ : ∃ m ms, qs = m :: ms := by
    cases qs with
    | nil => exact absurd hq0 (List.not_mem_nil _)
    | cons a b => exact ⟨a, b, rfl⟩
  simp only [convolution_helper_padding_same]
  split
  · rename_i hemp
    rw [hst] at hemp
    simp at hemp
  · split
    · rename_i hemp2
      rw [hst, filterMap_id_map_some] at hemp2
      cases hemp2
    · rename_i m2 ms2 hcons
      rw [hst, filterMap_id_map_some] at hcons
      injection hcons with e1 e2
      subst e1; subst e2
      have hminlt : ¬ 1 ≤ npMin m ms := by
        have := npMin_le m ms hq0
        intro hcon
        linarith
      have hmaxle : ¬ 1 < npMax m ms := by
        have := npMax_le m ms (hle m (List.mem_cons_self m ms))
          (fun q hq => hle q (List.mem_cons_of_mem m hq))
        intro hcon
        linarith
      rw [if_neg hminlt, if_neg hmaxle]
      have hos0 : (b0 :: (mids.map some ++ [some ch])).map (fun oi => oi.getD (-1)) =
          b0.getD (-1) :: (mids ++ [ch]) := by
        rw [List.map_cons, List.map_append, map_getD_map_some]
        rfl
      rw [hst, hos0]
      have hsparg : ((b0.getD (-1) :: (mids ++ [ch])).drop 1).take
          ((b0.getD (-1) :: (mids ++ [ch])).length - 2) = mids := by
        have h1 : (b0.getD (-1) :: (mids ++ [ch])).length - 2 = mids.length := by simp
        rw [h1]
        exact List.take_left mids [ch]
      rw [hsparg, computeSpatial_map_some (m :: ms) mids hnz]
      split
      · rename_i e heq
        exact Except.noConfusion heq
      · rename_i sp heq
        injection heq with hsp
        subst hsp
        rw [hfs]
        have hlast : fs.getLast? = some (fs.getLast hne) := List.getLast?_eq_getLast fs hne
        rw [hlast]
        split
        · rename_i heq2
          exact Option.noConfusion heq2
        · rename_i chL heq2
          injection heq2 with hchL
          subst hchL
          rw [if_neg (by simp)]
          rw [if_pos h45, if_neg h3]
          rw [convertStrides_map_some (m :: ms) hnz]
          split
          · rename_i e heq3
            exact Except.noConfusion heq3
          · rename_i conv heq3
            injection heq3 with hconv
            subst hconv
            rw [os3_eval]
  have hnz : ∀ q ∈ qs, q ≠ 0 := fun q hq => ne_of_gt (hpos q hq)
  obtain ⟨m, ms, rfl⟩ : ∃ m ms, qs = m :: ms := by
    cases qs with
    | nil => exact absurd hq0 (List.not_mem_nil _)
    | cons a b => exact ⟨a, b, rfl⟩
  simp only [convolution_helper_padding_same]
  split
  · rename_i hemp
    rw [hst] at hemp
    simp at hemp
  · split
    · rename_i hemp2
      rw [hst, filterMap_id_map_some] at hemp2
      cases hemp2
    · rename_i m2 ms2 hcons
      rw [hst, filterMap_id_map_some] at hcons
      injection hcons with e1 e2
      subst e1; subst e2
      have hminlt : ¬ 1 ≤ npMin m ms := by
        have := npMin_le m ms hq0
        intro hcon
        linarith
      have hmaxle : ¬ 1 < npMax m ms := by
        have := npMax_le m ms (hle m (List.mem_cons_self m ms))
          (fun q hq => hle q (List.mem_cons_of_mem m hq))
        intro hcon
        linarith
      rw [if_neg hminlt, if_neg hmaxle]
      have hos0 : (b0 :: (mids.map some ++ [some ch])).map (fun oi => oi.getD (-1)) =
          b0.getD (-1) :: (mids ++ [ch]) := by
        rw [List.map_cons, List.map_append, map_getD_map_some]
        rfl
      rw [hst, hos0]
      have hsparg : ((b0.getD (-1) :: (mids ++ [ch])).drop 1).take
          ((b0.getD (-1) :: (mids ++ [ch])).length - 2) = mids := by
        have h1 : (b0.getD (-1) :: (mids ++ [ch])).length - 2 = mids.length := by simp
        rw [h1]
        exact List.take_left mids [ch]
      rw [hsparg, computeSpatial_map_some (m :: ms) mids hnz]
      split
      · rename_i e heq
        exact Except.noConfusion heq
      · rename_i sp heq
        injection heq with hsp
        subst hsp
        rw [hfs]
        have hlast : fs.getLast? = some (fs.getLast hne) := List.getLast?_eq_getLast fs hne
        rw [hlast]
        split
        · rename_i heq2
          exact Option.noConfusion heq2
        · rename_i chL heq2
          injection heq2 with hchL
          subst hchL
          rw [if_neg (by simp)]
          rw [if_pos (by omega : fs.length < 5), if_pos h3]
          have hc : ((σs ++ [(m :: ms).map some]).set σs.length
              (pyInsert ((m :: ms).map some) 0 (some 1))).getD σs.length [] =
              pyInsert ((m :: ms).map some) 0 (some 1) :=
            pyGetD_set_self _ _ _ _ (by simp)
          rw [hc]
          have h1nz : ∀ q ∈ (1 : ℚ) :: m :: ms, q ≠ 0 := by
            intro q hq
            rcases List.mem_cons.mp hq with rfl | h
            · exact one_ne_zero
            · exact hnz q h
          rw [show pyInsert ((m :: ms).map some) 0 (some 1) =
            (((1 : ℚ) :: m :: ms).map some) from rfl]
          rw [convertStrides_map_some ((1 : ℚ) :: m :: ms) h1nz]
          split
          · rename_i e heq3
            exact Except.noConfusion heq3
          · rename_i conv heq3
            injection heq3 with hconv
            subst hconv
            have hf2 : (((σf ++ [fs]) ++
                [fs.take (fs.length - 2) ++ (fs.drop (fs.length - 2)).reverse]).getD
                (σf ++ [fs]).length []) =
                fs.take (fs.length - 2) ++ (fs.drop (fs.length - 2)).reverse :=
              pyGetD_concat_self _ _ _
            rw [hf2, os3_eval]
            rfl

/-- C7: a stride list containing a non-None stride below 1 and a non-None
stride above 1 makes the helper raise the mixed-stride exception immediately,
with both caller heaps returned unchanged (no copy, insertion or output-shape
computation happens). -/
theorem C7_theorem (inpShape : List (Option Int)) (σs : List Strides)
    (σf : List (List Int)) (sref fref : Nat) (q q' : ℚ)
    (hq : some q ∈ σs.getD sref []) (hq' : some q' ∈ σs.getD sref [])
    (h1 : q < 1) (h2 : 1 < q') :
    convolution_helper_padding_same inpShape σs σf sref fref =
      (.error .mixedStride, σs, σf) := by
  have hnil : σs.getD sref [] ≠ [] := by
    intro h
    rw [h] at hq
    exact List.not_mem_nil _ hq
  have hmemq : q ∈ (σs.getD sref []).filterMap id :=
    List.mem_filterMap.mpr ⟨some q, hq, rfl⟩
  have hmemq' : q' ∈ (σs.getD sref []).filterMap id :=
    List.mem_filterMap.mpr ⟨some q', hq', rfl⟩
  simp only [convolution_helper_padding_same]
  rw [if_neg hnil]
  split
  · rename_i hn
    rw [hn] at hmemq
    exact absurd hmemq (List.not_mem_nil _)
  · rename_i m ms hcons
    rw [hcons] at hmemq hmemq'
    have hmin : npMin m ms ≤ q := npMin_le m ms hmemq
    have hmax : q' ≤ npMax m ms := le_npMax m ms hmemq'
    rw [if_neg (by linarith), if_pos (by linarith)]

theorem conv_heaps (inpShape : List (Option Int)) (σs : List Strides)
    (σf : List (List Int)) (sref fref : Nat) :
    (convolution_helper_padding_same inpShape σs σf sref fref).2 = (σs, σf) ∨
    (∃ a b, (convolution_helper_padding_same inpShape σs σf sref fref).2 =
      (σs, (σf ++ [a]) ++ [b])) ∨
    (∃ u v a b c, (convolution_helper_padding_same inpShape σs σf sref fref).2 =
      ((σs ++ [u]).set σs.length v, ((σf ++ [a]) ++ [b]).set (σf ++ [a]).length c)) := by
  obtain ⟨r, hr⟩ : ∃ r, convolution_helper_padding_same inpShape σs σf sref fref = r :=
    ⟨_, rfl⟩
  rw [hr]
  simp only [convolution_helper_padding_same] at hr
  repeat' split at hr
  all_goals rw [← hr]
  all_goals first
    | exact Or.inl rfl
    | exact Or.inr (Or.inl ⟨_, _, rfl⟩)
    | exact Or.inr (Or.inr ⟨_, _, _, _, _, rfl⟩)

/-- C10: the helper never mutates the caller's stride or filter-shape lists:
every list cell that existed in either heap before the call holds the same
value after the call, for every input. -/
theorem C10_theorem (inpShape : List (Option Int)) (σs : List Strides)
    (σf : List (List Int)) (sref fref : Nat) :
    (∀ i, i < σs.length →
      ((convolution_helper_padding_same inpShape σs σf sref fref).2.1).getD i [] =
        σs.getD i []) ∧
    (∀ j, j < σf.length →
      ((convolution_helper_padding_same inpShape σs σf sref fref).2.2).getD j [] =
        σf.getD j []) := by
  constructor
  · intro i hi
    rcases conv_heaps inpShape σs σf sref fref with h | ⟨a, b, h⟩ | ⟨u, v, a, b, c, h⟩
    · have h1 : (convolution_helper_padding_same inpShape σs σf sref fref).2.1 = σs := by
        rw [h]
      rw [h1]
    · have h1 : (convolution_helper_padding_same inpShape σs σf sref fref).2.1 = σs := by
        rw [h]
      rw [h1]
    · have h1 : (convolution_helper_padding_same inpShape σs σf sref fref).2.1 =
          (σs ++ [u]).set σs.length v := by rw [h]
      rw [h1, pyGetD_set_ne _ _ _ _ _ (by omega), pyGetD_append_left _ _ _ _ hi]
  · intro j hj
    rcases conv_heaps inpShape σs σf sref fref with h | ⟨a, b, h⟩ | ⟨u, v, a, b, c, h⟩
    · have h1 : (convolution_helper_padding_same inpShape σs σf sref fref).2.2 = σf := by
        rw [h]
      rw [h1]
    · have h1 : (convolution_helper_padding_same inpShape σs σf sref fref).2.2 =
          (σf ++ [a]) ++ [b] := by rw [h]
      rw [h1, pyGetD_append_left _ _ _ _ (by simp; omega),
        pyGetD_append_left _ _ _ _ hj]
    · have h1 : (convolution_helper_padding_same inpShape σs σf sref fref).2.2 =
          ((σf ++ [a]) ++ [b]).set (σf ++ [a]).length c := by rw [h]
      rw [h1, pyGetD_set_ne _ _ _ _ _ (by simp; omega),
        pyGetD_append_left _ _ _ _ (by simp; omega),
        pyGetD_append_left _ _ _ _ hj]

/-- C6: in the fractional-stride branch, rank-3 filters use the 2D transposed
convolution with synthesized singleton dimensions, every other rank below 5
(including ranks 1, 2 and 4) uses the plain 2D transposed convolution, rank-5
filters use the 3D transposed convolution, and only ranks 6 and above raise
the unsupported-rank exception. -/
theorem C6_amended
    (σs : List Strides) (σf : List (List Int)) (sref fref : Nat)
    (qs : List ℚ) (b0 : Option Int) (mids : List Int) (ch : Int) (fs : List Int)
    (hst : σs.getD sref [] = qs.map some)
    (hpos : ∀ q ∈ qs, 0 < q) (hle : ∀ q ∈ qs, q ≤ 1)
    (q0 : ℚ) (hq0 : q0 ∈ qs) (hq0lt : q0 < 1)
    (hlen : qs.length = mids.length)
    (hfs : σf.getD fref [] = fs) (hne : fs ≠ []) :
    (fs.length = 3 →
      ∃ fr ir os st oo,
        (convolution_helper_padding_same (b0 :: (mids.map some ++ [some ch]))
          σs σf sref fref).1 =
          .ok (.t2d [0, 2, 1] (some fr) (some ir) os st (some oo))) ∧
    (fs.length < 5 → fs.length ≠ 3 →
      ∃ os st,
        (convolution_helper_padding_same (b0 :: (mids.map some ++ [some ch]))
          σs σf sref fref).1 =
          .ok (.t2d (List.range (fs.length - 2) ++ [fs.length - 1, fs.length - 2])
            none none os st none)) ∧
    (fs.length = 5 →
      ∃ os st,
        (convolution_helper_padding_same (b0 :: (mids.map some ++ [some ch]))
          σs σf sref fref).1 = .ok (.t3d [0, 1, 2, 4, 3] os st)) ∧
    (6 ≤ fs.length →
      (convolution_helper_padding_same (b0 :: (mids.map some ++ [some ch]))
        σs σf sref fref).1 = .error .unsupportedRank) := by
  obtain ⟨H6, H5, H45, H3⟩ :=
    conv_frac σs σf sref fref qs b0 mids ch fs hst hpos hle q0 hq0 hq0lt hlen hfs hne
  refine ⟨fun h3 => ?_, fun h45 h3 => ?_, fun h5 => ?_, fun h6 => ?_⟩
  · exact ⟨1 :: (fs.take (fs.length - 2) ++ (fs.drop (fs.length - 2)).reverse),
      b0.getD (-1) :: (1 : Int) :: (mids ++ [ch]),
      ConvDim.dynBatch :: ConvDim.const 1 ::
        (((qs.zip mids).map (fun p => npRound (1 / p.1 * (p.2 : ℚ)))).map ConvDim.const ++
          [ConvDim.const (fs.getLast hne)]),
      1 :: (((1 : ℚ) :: qs).map (fun q => if q < 1 then pyInt (1 / q) else q)) ++ [1],
      ConvDim.dynBatch ::
        (((qs.zip mids).map (fun p => npRound (1 / p.1 * (p.2 : ℚ)))).map ConvDim.const ++
          [ConvDim.const (fs.getLast hne)]),
      by rw [H3 h3, h3]; rfl⟩
  · exact ⟨ConvDim.dynBatch ::
        (((qs.zip mids).map (fun p => npRound (1 / p.1 * (p.2 : ℚ)))).map ConvDim.const ++
          [ConvDim.const (fs.getLast hne)]),
      1 :: qs.map (fun q => if q < 1 then pyInt (1 / q) else q) ++ [1],
      by rw [H45 h45 h3]⟩
  · exact ⟨ConvDim.dynBatch ::
        (((qs.zip mids).map (fun p => npRound (1 / p.1 * (p.2 : ℚ)))).map ConvDim.const ++
          [ConvDim.const (fs.getLast hne)]),
      1 :: qs.map (fun q => if q < 1 then pyInt (1 / q) else q) ++ [1],
      by rw [H5 h5, h5]; rfl⟩
  · rw [H6 h6]

/-- C6 counterexample: a rank-2 filter (rank outside {3, 4, 5}) does not raise
the unsupported-rank exception; the call succeeds with a 2D transposed
convolution. -/
theorem C6_counterexample :
    ([4, 4] : List Int).length = 2 ∧
    (convolution_helper_padding_same [some 1, some 8, some 4]
      [[some (1/2)]] [[4, 4]] 0 0).1 =
      .ok (.t2d [1, 0] none none
        [ConvDim.dynBatch, ConvDim.const 16, ConvDim.const 4] [1, 2, 1] none) := by
  refine ⟨rfl, ?_⟩
  have hpos : ∀ q ∈ [(1:ℚ)/2], 0 < q := by
    intro q hq
    rw [List.mem_singleton] at hq
    rw [hq]
    exact one_half_pos
  have hle : ∀ q ∈ [(1:ℚ)/2], q ≤ 1 := by
    intro q hq
    rw [List.mem_singleton] at hq
    rw [hq]
    exact le_of_lt one_half_lt_one
  have H := (conv_frac [[some (1/2)]] [[4, 4]] 0 0 [1/2] (some 1) [8] 4 [4, 4]
    rfl hpos hle (1/2) (List.mem_singleton.mpr rfl) one_half_lt_one rfl rfl
    (by decide)).2.2.1 (by decide) (by decide)
  show (convolution_helper_padding_same (some 1 :: (List.map some [8] ++ [some 4]))
    [[some (1/2)]] [[4, 4]] 0 0).1 = _
  rw [H]
  have e1 : ([((1:ℚ)/2)].zip ([8] : List Int)).map
      (fun p => npRound (1 / p.1 * (p.2 : ℚ))) = [16] := by
    show [npRound (1 / ((1:ℚ)/2) * (((8:Int)):ℚ))] = [16]
    rw [show (1 / ((1:ℚ)/2) * (((8:Int)):ℚ)) = 16 by norm_num]
    have hnr : npRound (16:ℚ) = 16 := by
      unfold npRound
      rw [show ⌊(16:ℚ)⌋ = 16 from by rw [Int.floor_eq_iff] <;> norm_num]
      norm_num
    rw [hnr]
  have e2 : ([(1:ℚ)/2]).map (fun q => if q < 1 then pyInt (1 / q) else q) = [2] := by
    show [if ((1:ℚ)/2) < 1 then pyInt (1 / ((1:ℚ)/2)) else ((1:ℚ)/2)] = [2]
    rw [if_pos (by norm_num : ((1:ℚ)/2) < 1)]
    rw [show (1 / ((1:ℚ)/2)) = (2:ℚ) by norm_num]
    have hp2 : pyInt (2:ℚ) = 2 := by
      unfold pyInt
      rw [if_neg (by norm_num : ¬ (2:ℚ) < 0)]
      rw [show ⌊(2:ℚ)⌋ = 2 from by rw [Int.floor_eq_iff] <;> norm_num]
      norm_num
    rw [hp2]
  rw [e1, e2]
  rfl

/-- C8: in the fractional-stride branch the output shape is the dynamic batch
dimension, each spatial dimension rounded after division by its stride, and
the last filter-shape entry as channel dimension; a None stride leaves its
spatial dimension unchanged in the output-shape computation; strides
[0.5, 0.5] on a (1, 8, 8, 4) input with a (3, 3, 4, 4) filter yield output
shape (batch, 16, 16, 4). -/
theorem C8_theorem
    (σs : List Strides) (σf : List (List Int)) (sref fref : Nat)
    (qs : List ℚ) (b0 : Option Int) (mids : List Int) (ch : Int) (fs : List Int)
    (hst : σs.getD sref [] = qs.map some)
    (hpos : ∀ q ∈ qs, 0 < q) (hle : ∀ q ∈ qs, q ≤ 1)
    (q0 : ℚ) (hq0 : q0 ∈ qs) (hq0lt : q0 < 1)
    (hlen : qs.length = mids.length)
    (hfs : σf.getD fref [] = fs) (hne : fs ≠ []) :
    (fs.length < 5 → fs.length ≠ 3 →
      ∃ st,
        (convolution_helper_padding_same (b0 :: (mids.map some ++ [some ch]))
          σs σf sref fref).1 =
          .ok (.t2d (List.range (fs.length - 2) ++ [fs.length - 1, fs.length - 2])
            none none
            (ConvDim.dynBatch ::
              (((qs.zip mids).map (fun p => npRound (1 / p.1 * (p.2 : ℚ)))).map
                ConvDim.const ++ [ConvDim.const (fs.getLast hne)]))
            st none)) ∧
    (∀ (ss : Strides) (o : Int) (os : List Int) (r : List Int),
      computeSpatial ss os = .ok r →
      computeSpatial (none :: ss) (o :: os) = .ok (o :: r)) ∧
    ((convolution_helper_padding_same [some 1, some 8, some 8, some 4]
        [[some (1/2), some (1/2)]] [[3, 3, 4, 4]] 0 0).1 =
      .ok (.t2d [0, 1, 3, 2] none none
        [ConvDim.dynBatch, ConvDim.const 16, ConvDim.const 16, ConvDim.const 4]
        [1, 2, 2, 1] none)) := by
  refine ⟨fun h45 h3 => ?_, fun ss o os r h => ?_, ?_⟩
  · exact ⟨1 :: qs.map (fun q => if q < 1 then pyInt (1 / q) else q) ++ [1],
      by rw [(conv_frac σs σf sref fref qs b0 mids ch fs hst hpos hle q0 hq0 hq0lt
        hlen hfs hne).2.2.1 h45 h3]⟩
  · have hdef : computeSpatial (none :: ss) (o :: os) =
        match computeSpatial ss os with
        | .error e => .error e
        | .ok rest => .ok (o :: rest) := rfl
    rw [hdef, h]
  · have hpos2 : ∀ q ∈ [(1:ℚ)/2, 1/2], 0 < q := by
      intro q hq
      rcases List.mem_cons.mp hq with rfl | hq
      · exact one_half_pos
      · rw [List.mem_singleton] at hq
        rw [hq]
        exact one_half_pos
    have hle2 : ∀ q ∈ [(1:ℚ)/2, 1/2], q ≤ 1 := by
      intro q hq
      rcases List.mem_cons.mp hq with rfl | hq
      · exact le_of_lt one_half_lt_one
      · rw [List.mem_singleton] at hq
        rw [hq]
        exact le_of_lt one_half_lt_one
    have H := (conv_frac [[some (1/2), some (1/2)]] [[3, 3, 4, 4]] 0 0 [1/2, 1/2]
      (some 1) [8, 8] 4 [3, 3, 4, 4] rfl hpos2 hle2 (1/2)
      (List.mem_cons_self _ _) one_half_lt_one rfl rfl (by decide)).2.2.1
      (by decide) (by decide)
    show (convolution_helper_padding_same (some 1 :: (List.map some [8, 8] ++ [some 4]))
      [[some (1/2), some (1/2)]] [[3, 3, 4, 4]] 0 0).1 = _
    rw [H]
    have e1 : ([(1:ℚ)/2, 1/2].zip ([8, 8] : List Int)).map
        (fun p => npRound (1 / p.1 * (p.2 : ℚ))) = [16, 16] := by
      show [npRound (1 / ((1:ℚ)/2) * (((8:Int)):ℚ)),
            npRound (1 / ((1:ℚ)/2) * (((8:Int)):ℚ))] = [16, 16]
      rw [show (1 / ((1:ℚ)/2) * (((8:Int)):ℚ)) = 16 by norm_num]
      have hnr : npRound (16:ℚ) = 16 := by
        unfold npRound
        rw [show ⌊(16:ℚ)⌋ = 16 from by rw [Int.floor_eq_iff] <;> norm_num]
        norm_num
      rw [hnr]
    have e2 : ([(1:ℚ)/2, 1/2]).map (fun q => if q < 1 then pyInt (1 / q) else q) =
        [2, 2] := by
      show [if ((1:ℚ)/2) < 1 then pyInt (1 / ((1:ℚ)/2)) else ((1:ℚ)/2),
            if ((1:ℚ)/2) < 1 then pyInt (1 / ((1:ℚ)/2)) else ((1:ℚ)/2)] = [2, 2]
      rw [if_pos (by norm_num : ((1:ℚ)/2) < 1)]
      rw [show (1 / ((1:ℚ)/2)) = (2:ℚ) by norm_num]
      have hp2 : pyInt (2:ℚ) = 2 := by
        unfold pyInt
        rw [if_neg (by norm_num : ¬ (2:ℚ) < 0)]
        rw [show ⌊(2:ℚ)⌋ = 2 from by rw [Int.floor_eq_iff] <;> norm_num]
        norm_num
      rw [hp2]
    rw [e1, e2]
    rfl

/-- C9: in the fractional-stride branch each stride s below 1 is converted to
int(1 / s), the truncation of the reciprocal (equal to its floor for positive
s), not its nearest-integer rounding. -/
theorem C9_amended
    (σs : List Strides) (σf : List (List Int)) (sref fref : Nat)
    (qs : List ℚ) (b0 : Option Int) (mids : List Int) (ch : Int) (fs : List Int)
    (hst : σs.getD sref [] = qs.map some)
    (hpos : ∀ q ∈ qs, 0 < q) (hle : ∀ q ∈ qs, q ≤ 1)
    (q0 : ℚ) (hq0 : q0 ∈ qs) (hq0lt : q0 < 1)
    (hlen : qs.length = mids.length)
    (hfs : σf.getD fref [] = fs) (hne : fs ≠ []) :
    (fs.length < 5 → fs.length ≠ 3 →
      ∃ os,
        (convolution_helper_padding_same (b0 :: (mids.map some ++ [some ch]))
          σs σf sref fref).1 =
          .ok (.t2d (List.range (fs.length - 2) ++ [fs.length - 1, fs.length - 2])
            none none os
            (1 :: qs.map (fun q => if q < 1 then pyInt (1 / q) else q) ++ [1])
            none)) ∧
    (∀ q : ℚ, 0 < q → pyInt (1 / q) = ((⌊1 / q⌋ : ℤ) : ℚ)) := by
  refine ⟨fun h45 h3 => ?_, fun q hq => ?_⟩
  · exact ⟨ConvDim.dynBatch ::
      (((qs.zip mids).map (fun p => npRound (1 / p.1 * (p.2 : ℚ)))).map ConvDim.const ++
        [ConvDim.const (fs.getLast hne)]),
      by rw [(conv_frac σs σf sref fref qs b0 mids ch fs hst hpos hle q0 hq0 hq0lt
        hlen hfs hne).2.2.1 h45 h3]⟩
  · unfold pyInt
    rw [if_neg (not_lt.mpr (div_nonneg zero_le_one hq.le))]

/-- C9 counterexample: for stride 3/5 the code passes the factor
int(5/3) = 1 to the transposed convolution, while the claimed
round(5/3) = 2. -/
theorem C9_counterexample :
    npRound (1 / ((3:ℚ)/5)) = 2 ∧
    (convolution_helper_padding_same [some 1, some 10, some 10, some 4]
      [[some (3/5), some (3/5)]] [[3, 3, 4, 4]] 0 0).1 =
      .ok (.t2d [0, 1, 3, 2] none none
        [ConvDim.dynBatch, ConvDim.const 17, ConvDim.const 17, ConvDim.const 4]
        [1, 1, 1, 1] none) := by
  constructor
  · rw [show (1 / ((3:ℚ)/5)) = 5/3 by norm_num]
    unfold npRound
    rw [show ⌊(5:ℚ)/3⌋ = 1 from by rw [Int.floor_eq_iff] <;> norm_num]
    norm_num
  · have hpos2 : ∀ q ∈ [(3:ℚ)/5, 3/5], 0 < q := by
      intro q hq
      rcases List.mem_cons.mp hq with rfl | hq
      · norm_num
      · rw [List.mem_singleton] at hq
        rw [hq]
        norm_num
    have hle2 : ∀ q ∈ [(3:ℚ)/5, 3/5], q ≤ 1 := by
      intro q hq
      rcases List.mem_cons.mp hq with rfl | hq
      · norm_num
      · rw [List.mem_singleton] at hq
        rw [hq]
        norm_num
    have H := (conv_frac [[some (3/5), some (3/5)]] [[3, 3, 4, 4]] 0 0 [3/5, 3/5]
      (some 1) [10, 10] 4 [3, 3, 4, 4] rfl hpos2 hle2 (3/5)
      (List.mem_cons_self _ _) (by norm_num) rfl rfl (by decide)).2.2.1
      (by decide) (by decide)
    show (convolution_helper_padding_same (some 1 :: (List.map some [10, 10] ++ [some 4]))
      [[some (3/5), some (3/5)]] [[3, 3, 4, 4]] 0 0).1 = _
    rw [H]
    have e1 : ([(3:ℚ)/5, 3/5].zip ([10, 10] : List Int)).map
        (fun p => npRound (1 / p.1 * (p.2 : ℚ))) = [17, 17] := by
      show [npRound (1 / ((3:ℚ)/5) * (((10:Int)):ℚ)),
            npRound (1 / ((3:ℚ)/5) * (((10:Int)):ℚ))] = [17, 17]
      rw [show (1 / ((3:ℚ)/5) * (((10:Int)):ℚ)) = 50/3 by norm_num]
      have hnr : npRound ((50:ℚ)/3) = 17 := by
        unfold npRound
        rw [show ⌊(50:ℚ)/3⌋ = 16 from by rw [Int.floor_eq_iff] <;> norm_num]
        norm_num
      rw [hnr]
    have e2 : ([(3:ℚ)/5, 3/5]).map (fun q => if q < 1 then pyInt (1 / q) else q) =
        [1, 1] := by
      show [if ((3:ℚ)/5) < 1 then pyInt (1 / ((3:ℚ)/5)) else ((3:ℚ)/5),
            if ((3:ℚ)/5) < 1 then pyInt (1 / ((3:ℚ)/5)) else ((3:ℚ)/5)] = [1, 1]
      rw [if_pos (by norm_num : ((3:ℚ)/5) < 1)]
      rw [show (1 / ((3:ℚ)/5)) = (5:ℚ)/3 by norm_num]
      have hp1 : pyInt ((5:ℚ)/3) = 1 := by
        unfold pyInt
        rw [if_neg (by norm_num : ¬ (5:ℚ)/3 < 0)]
        rw [show ⌊(5:ℚ)/3⌋ = 1 from by rw [Int.floor_eq_iff] <;> norm_num]
        norm_num
      rw [hp1]
    rw [e1, e2]
    rfl

/-- C6 witness: a rank-6 filter raises the unsupported-rank exception. -/
theorem C6_witness :
    (convolution_helper_padding_same [some 1, some 8, some 4]
      [[some (1/2)]] [[1, 1, 1, 1, 1, 4]] 0 0).1 = .error .unsupportedRank :=
  (C6_amended [[some (1/2)]] [[1, 1, 1, 1, 1, 4]] 0 0 [1/2] (some 1) [8] 4
    [1, 1, 1, 1, 1, 4] rfl
    (fun q hq => by rw [List.mem_singleton] at hq; rw [hq]; exact one_half_pos)
    (fun q hq => by rw [List.mem_singleton] at hq; rw [hq]; exact le_of_lt one_half_lt_one)
    (1/2) (List.mem_singleton.mpr rfl) one_half_lt_one rfl rfl (by decide)).2.2.2
    (by decide)

/-- C7 witness: strides [2, 0.5] raise the mixed-stride exception. -/
theorem C7_witness :
    convolution_helper_padding_same [some 1, some 4, some 4, some 4]
      [[some 2, some (1/2)]] [[3, 3, 4, 4]] 0 0 =
      (.error .mixedStride, [[some 2, some (1/2)]], [[3, 3, 4, 4]]) :=
  C7_theorem [some 1, some 4, some 4, some 4] [[some 2, some (1/2)]] [[3, 3, 4, 4]] 0 0
    (1/2) 2 (List.mem_cons_of_mem _ (List.mem_singleton.mpr rfl))
    (List.mem_cons_self _ _) one_half_lt_one one_lt_two

/-- C8 witness: the output-shape formula at the concrete (1, 8, 8, 4) input. -/
theorem C8_witness :
    ∃ st,
      (convolution_helper_padding_same [some 1, some 8, some 8, some 4]
        [[some (1/2), some (1/2)]] [[3, 3, 4, 4]] 0 0).1 =
        .ok (.t2d (List.range (([3, 3, 4, 4] : List Int).length - 2) ++
            [([3, 3, 4, 4] : List Int).length - 1, ([3, 3, 4, 4] : List Int).length - 2])
          none none
          (ConvDim.dynBatch ::
            ((([(1:ℚ)/2, 1/2].zip ([8, 8] : List Int)).map
              (fun p => npRound (1 / p.1 * (p.2 : ℚ)))).map ConvDim.const ++
              [ConvDim.const (([3, 3, 4, 4] : List Int).getLast (by decide))]))
          st none) :=
  (C8_theorem [[some (1/2), some (1/2)]] [[3, 3, 4, 4]] 0 0 [1/2, 1/2] (some 1) [8, 8] 4
    [3, 3, 4, 4] rfl
    (fun q hq => by
      rcases List.mem_cons.mp hq with rfl | hq
      · exact one_half_pos
      · rw [List.mem_singleton] at hq; rw [hq]; exact one_half_pos)
    (fun q hq => by
      rcases List.mem_cons.mp hq with rfl | hq
      · exact le_of_lt one_half_lt_one
      · rw [List.mem_singleton] at hq; rw [hq]; exact le_of_lt one_half_lt_one)
    (1/2) (List.mem_cons_self _ _) one_half_lt_one rfl rfl (by decide)).1
    (by decide) (by decide)

/-- C9 witness: the stride-conversion formula at strides [0.5, 0.5]. -/
theorem C9_witness :
    ∃ os,
      (convolution_helper_padding_same [some 1, some 8, some 8, some 4]
        [[some (1/2), some (1/2)]] [[3, 3, 4, 4]] 0 0).1 =
        .ok (.t2d (List.range (([3, 3, 4, 4] : List Int).length - 2) ++
            [([3, 3, 4, 4] : List Int).length - 1, ([3, 3, 4, 4] : List Int).length - 2])
          none none os
          (1 :: [(1:ℚ)/2, 1/2].map (fun q => if q < 1 then pyInt (1 / q) else q) ++ [1])
          none) :=
  (C9_amended [[some (1/2), some (1/2)]] [[3, 3, 4, 4]] 0 0 [1/2, 1/2] (some 1)
    [8, 8] 4 [3, 3, 4, 4] rfl
    (fun q hq => by
      rcases List.mem_cons.mp hq with rfl | hq
      · exact one_half_pos
      · rw [List.mem_singleton] at hq; rw [hq]; exact one_half_pos)
    (fun q hq => by
      rcases List.mem_cons.mp hq with rfl | hq
      · exact le_of_lt one_half_lt_one
      · rw [List.mem_singleton] at hq; rw [hq]; exact le_of_lt one_half_lt_one)
    (1/2) (List.mem_cons_self _ _) one_half_lt_one rfl rfl (by decide)).1
    (by decide) (by decide)

/-- C10 witness: heaps unchanged at a concrete fractional-stride call. -/
theorem C10_witness :
    ((convolution_helper_padding_same [some 1, some 8, some 4]
      [[some (1/2)]] [[3, 4, 4]] 0 0).2.1).getD 0 [] = [some (1/2)] ∧
    ((convolution_helper_padding_same [some 1, some 8, some 4]
      [[some (1/2)]] [[3, 4, 4]] 0 0).2.2).getD 0 [] = [3, 4, 4] :=
  ⟨(C10_theorem [some 1, some 8, some 4] [[some (1/2)]] [[3, 4, 4]] 0 0).1 0 (by decide),
   (C10_theorem [some 1, some 8, some 4] [[some (1/2)]] [[3, 4, 4]] 0 0).2 0 (by decide)⟩
